import Mathlib

/-
  Verification of the pyspartn SPARTN transport-layer framer.

  The development shallowly embeds the two reader variants of the repository:
  the earlier variant (`pyspartn/spartnreader.py`) and the later variant
  (`src/pyspartn/spartnreader.py`), together with the payload-schema registry
  (`src/pyspartn/spartntypes_get.py`).

  Byte streams are `List Nat` with each byte below 256.  Fallible reads are
  `Option`/`Except`; the Python exceptions (EOFError, SPARTNParseError, ...)
  are the error constructors of `PErr`.

  Helper modules of the repository (`spartnhelpers.py`, `spartntypes_core.py`,
  `exceptions.py`, `spartnmessage.py`) are not part of the given sources; the
  definitions taken from them are modelled from the specification and marked
  `Modelled from the spec:` in their doc comments.
-/

set_option maxRecDepth 100000

deriving instance DecidableEq for Except

/-- Modelled from the spec: Python's `int.from_bytes(b, "big")` used by the
missing helper module — interpret a byte list as a big-endian integer. -/
def fromBytesBE (l : List Nat) : Nat :=
  l.foldl (fun acc b => acc * 256 + b) 0

/-- `stream.read(n)` followed by the `_read_bytes` length check of both reader
variants: produce exactly `n` bytes and the remaining stream, or `none` when
the stream ends prematurely (Python raises `EOFError`). -/
def readBytes : Nat → List Nat → Option (List Nat × List Nat)
  | 0, s => some ([], s)
  | _ + 1, [] => none
  | n + 1, b :: s =>
    match readBytes n s with
    | none => none
    | some (a, r) => some (b :: a, r)

/-- Modelled from the spec: `bitsval(buffer, position, length)` of the missing
`spartnhelpers.py` — read `length` bits MSB-first starting at bit `position`;
fails (Python raises `SPARTNMessageError`) when the range leaves the buffer. -/
def bitsval (buf : List Nat) (pos width : Nat) : Option Nat :=
  if pos + width > 8 * buf.length then none
  else some ((fromBytesBE buf >>> (8 * buf.length - pos - width)) % 2 ^ width)

/-- Modelled from the spec: preamble constant `SPARTN_PREB = b"\x73"` of the
missing `spartntypes_core.py`. -/
def SPARTN_PREB : List Nat := [115]

/-- Modelled from the spec: validation flag `VALCRC = 1` of the missing
`spartntypes_core.py` (spec section 6.1: bit-flags, 1 = validate CRC). -/
def VALCRC : Nat := 1

/-- One MSB-first CRC shift step for a register of `width` bits with the given
polynomial. -/
def crcShiftBit (width poly c : Nat) : Nat :=
  if c.testBit (width - 1) then ((c <<< 1) ^^^ poly) % 2 ^ width
  else (c <<< 1) % 2 ^ width

/-- Fold one data byte into an MSB-first CRC register of `width ≥ 8` bits. -/
def crcByteMSB (width poly c b : Nat) : Nat :=
  (List.range 8).foldl (fun c _ => crcShiftBit width poly c)
    ((c ^^^ (b <<< (width - 8))) % 2 ^ width)

/-- Modelled from the spec: MSB-first CRC over a byte list (spec section 4.2),
used for CRC-8 (poly 0x07), CRC-16-CCITT (poly 0x1021) and CRC-24Q
(poly 0x1864CFB), all with init 0. -/
def crcMSB (width poly : Nat) (data : List Nat) : Nat :=
  data.foldl (fun c b => crcByteMSB width poly c b) 0

/-- One reflected CRC-32 shift step (polynomial 0x04C11DB7 reflected to
0xEDB88320). -/
def crc32Step (c : Nat) : Nat :=
  if c % 2 = 1 then (c >>> 1) ^^^ 0xEDB88320 else c >>> 1

/-- Fold one data byte into the reflected CRC-32 register. -/
def crc32Byte (c b : Nat) : Nat :=
  (List.range 8).foldl (fun c _ => crc32Step c) (c ^^^ b)

/-- Modelled from the spec: CRC-32 (reflected polynomial 0x04C11DB7, init
0xFFFFFFFF, final xor 0xFFFFFFFF), spec section 4.2. -/
def crc32 (data : List Nat) : Nat :=
  (data.foldl crc32Byte 0xFFFFFFFF) ^^^ 0xFFFFFFFF

/-- Modelled from the spec: the CRC algorithm selected by the 2-bit `crcType`
(spec section 4.2 table). -/
def crcCompute (crcType : Nat) (data : List Nat) : Nat :=
  if crcType = 0 then crcMSB 8 0x07 data
  else if crcType = 1 then crcMSB 16 0x1021 data
  else if crcType = 2 then crcMSB 24 0x1864CFB data
  else crc32 data

/-- Modelled from the spec: `valid_crc(message, crc, crcType)` of the missing
`spartnhelpers.py` — the trailing CRC value equals the CRC computed over the
covered bytes with the algorithm selected by `crcType`. -/
def valid_crc (message : List Nat) (crc : Nat) (crcType : Nat) : Bool :=
  crc == crcCompute crcType message

/-- Error taxonomy raised inside the readers: `eof` is Python's `EOFError`,
`unknownProtocol` and `invalidCRC` are the two `SPARTNParseError`s raised by
the later reader variant (the earlier one raises `SPARTNStreamError` for an
unknown protocol byte), and `bitsErr` is the `SPARTNMessageError` that
`bitsval` raises on an out-of-range bit access. -/
inductive PErr where
  | eof
  | unknownProtocol (b : List Nat)
  | invalidCRC (crc : Nat)
  | bitsErr
  deriving DecidableEq, Repr

/-- Modelled from the spec: the parsed element of a read result.  `msg raw` is
the `SPARTNMessage` stub constructed from the raw transport bytes (the message
interpreter itself is outside the given sources); `errText e` stands for the
error-text string `str(err)` that the earlier variant returns for an unknown
protocol byte. -/
inductive Parsed where
  | msg (transport : List Nat)
  | errText (e : PErr)
  deriving DecidableEq, Repr

/-- `true` exactly on the `errText` constructor of `Parsed`. -/
def Parsed.isErrText : Parsed → Bool
  | .msg _ => false
  | .errText _ => true

/-- Payload-descriptor phase of the later reader variant
(`src/pyspartn/spartnreader.py` lines 156-167): pull 4 bytes, read
`timeTagtype` at bit 4, pull 2 more bytes when `timeTagtype` is set and 2 more
when `eaf` is set.  Returns the assembled `payDesc`, `timeTagtype` and the
remaining stream. -/
def payDescLate (eaf : Nat) (s : List Nat) :
    Except (PErr × List Nat) (List Nat × Nat × List Nat) :=
  match readBytes 4 s with
  | none => .error (.eof, [])
  | some (pd0, s1) =>
    match bitsval pd0 4 1 with
    | none => .error (.bitsErr, s1)
    | some tt =>
      match (if tt ≠ 0 then readBytes 2 s1 else some ([], s1)) with
      | none => .error (.eof, [])
      | some (ext1, s2) =>
        if eaf ≠ 0 then
          match readBytes 2 s2 with
          | none => .error (.eof, [])
          | some (ext2, s3) => .ok (pd0 ++ ext1 ++ ext2, tt, s3)
        else .ok (pd0 ++ ext1, tt, s2)

/-- Payload-descriptor phase of the earlier reader variant
(`pyspartn/spartnreader.py` lines 133-143): pull `6 if eaf else 4` bytes, read
`timeTagtype` at bit 4, pull 2 more bytes when `timeTagtype` is set. -/
def payDescEarly (eaf : Nat) (s : List Nat) :
    Except (PErr × List Nat) (List Nat × Nat × List Nat) :=
  match readBytes (if eaf ≠ 0 then 6 else 4) s with
  | none => .error (.eof, [])
  | some (pd0, s1) =>
    match bitsval pd0 4 1 with
    | none => .error (.bitsErr, s1)
    | some tt =>
      if tt ≠ 0 then
        match readBytes 2 s1 with
        | none => .error (.eof, [])
        | some (ext1, s2) => .ok (pd0 ++ ext1, tt, s2)
      else .ok (pd0, tt, s1)

/-- `authInd` extraction of the later variant: bits `gtlen + 26 .. gtlen + 29`
of the assembled `payDesc`, where `gtlen = 32 if timeTagtype else 16`. -/
def authIndLate (payDesc : List Nat) (tt : Nat) : Option Nat :=
  bitsval payDesc ((if tt ≠ 0 then 32 else 16) + 26) 3

/-- `embAuthLen` extraction of the later variant: bits `gtlen + 29 .. gtlen + 32`
of the assembled `payDesc`. -/
def embAuthLenLate (payDesc : List Nat) (tt : Nat) : Option Nat :=
  bitsval payDesc ((if tt ≠ 0 then 32 else 16) + 29) 3

/-- `authInd` extraction of the earlier variant: bits `pos + 21 .. pos + 24`
of the assembled `payDesc`, where `pos = 37 if timeTagtype else 21`. -/
def authIndEarly (payDesc : List Nat) (tt : Nat) : Option Nat :=
  bitsval payDesc ((if tt ≠ 0 then 37 else 21) + 21) 3

/-- `embAuthLen` extraction of the earlier variant: bits `pos + 24 .. pos + 27`
of the assembled `payDesc`. -/
def embAuthLenEarly (payDesc : List Nat) (tt : Nat) : Option Nat :=
  bitsval payDesc ((if tt ≠ 0 then 37 else 21) + 24) 3

/-- Embedded-auth length table of the later reader variant
(`src/pyspartn/spartnreader.py` lines 175-186): 8, 12, 16, 32 or 64 bytes for
`embAuthLen` 0..4, otherwise 0. -/
def alnLate (embAuthLen : Nat) : Nat :=
  if embAuthLen = 0 then 8
  else if embAuthLen = 1 then 12
  else if embAuthLen = 2 then 16
  else if embAuthLen = 3 then 32
  else if embAuthLen = 4 then 64
  else 0

/-- Tail of the later variant's `_parse_spartn` (lines 172-201): pull the
payload, the embedded-auth block (`alnLate embAuthLen` bytes when
`authInd > 1`), the `crcType + 1` CRC bytes, then validate the CRC when the
`VALCRC` flag is set and build the raw frame and the `SPARTNMessage` stub. -/
def parseTailLate (v : Nat) (pre framestart payDesc : List Nat)
    (nData crcType authInd embAuthLen : Nat) (s : List Nat) :
    Except (PErr × List Nat) (List Nat × Parsed × List Nat) :=
  match readBytes nData s with
  | none => .error (.eof, [])
  | some (payload, s3) =>
    match (if authInd > 1 then readBytes (alnLate embAuthLen) s3
           else some ([], s3)) with
    | none => .error (.eof, [])
    | some (embAuth, s4) =>
      match readBytes (crcType + 1) s4 with
      | none => .error (.eof, [])
      | some (crcb, s5) =>
        let crc := fromBytesBE crcb
        let core := framestart ++ payDesc ++ payload ++ embAuth
        let raw := pre ++ core ++ crcb
        if v &&& VALCRC ≠ 0 ∧ valid_crc core crc crcType = false then
          .error (.invalidCRC crc, s5)
        else .ok (raw, Parsed.msg raw, s5)

/-- `_parse_spartn` of the later reader variant
(`src/pyspartn/spartnreader.py` lines 137-201): framestart fields, payload
descriptor, `authInd`/`embAuthLen` when `eaf` is set (`authInd = 0`
otherwise), then the parse tail. -/
def parseSpartnLate (v : Nat) (pre s : List Nat) :
    Except (PErr × List Nat) (List Nat × Parsed × List Nat) :=
  match readBytes 3 s with
  | none => .error (.eof, [])
  | some (framestart, s1) =>
    match bitsval framestart 7 10, bitsval framestart 17 1,
          bitsval framestart 18 2 with
    | some nData, some eaf, some crcType =>
      match payDescLate eaf s1 with
      | .error e => .error e
      | .ok (payDesc, tt, s2) =>
        if eaf ≠ 0 then
          match authIndLate payDesc tt, embAuthLenLate payDesc tt with
          | some authInd, some embAuthLen =>
            parseTailLate v pre framestart payDesc nData crcType authInd
              embAuthLen s2
          | _, _ => .error (.bitsErr, s2)
        else parseTailLate v pre framestart payDesc nData crcType 0 0 s2
    | _, _, _ => .error (.bitsErr, s1)

/-- Tail of the earlier variant's `_parse_spartn` (lines 153-162): pull the
payload, the embedded-auth block of `(embAuthLen + 1) * 8` bytes when `eaf`
and `authInd > 1`, the `crcType + 1` CRC bytes (no CRC validation), and build
the raw frame and the `SPARTNMessage` stub. -/
def parseTailEarly (pre framestart payDesc : List Nat)
    (nData crcType eaf authInd embAuthLen : Nat) (s : List Nat) :
    Except (PErr × List Nat) (List Nat × Parsed × List Nat) :=
  match readBytes nData s with
  | none => .error (.eof, [])
  | some (payload, s3) =>
    match (if eaf ≠ 0 ∧ authInd > 1 then readBytes ((embAuthLen + 1) * 8) s3
           else some ([], s3)) with
    | none => .error (.eof, [])
    | some (embAuth, s4) =>
      match readBytes (crcType + 1) s4 with
      | none => .error (.eof, [])
      | some (crcb, s5) =>
        let raw := pre ++ framestart ++ payDesc ++ payload ++ embAuth ++ crcb
        .ok (raw, Parsed.msg raw, s5)

/-- `_parse_spartn` of the earlier reader variant
(`pyspartn/spartnreader.py` lines 114-162): framestart fields (including
`msgType` and `frameCrc`), payload descriptor, `gnssTimeTag`,
`authInd`/`embAuthLen` when `eaf` is set, then the parse tail. -/
def parseSpartnEarly (pre s : List Nat) :
    Except (PErr × List Nat) (List Nat × Parsed × List Nat) :=
  match readBytes 3 s with
  | none => .error (.eof, [])
  | some (framestart, s1) =>
    match bitsval framestart 0 7, bitsval framestart 7 10,
          bitsval framestart 17 1, bitsval framestart 18 2,
          bitsval framestart 20 4 with
    | some _msgType, some nData, some eaf, some crcType, some _frameCrc =>
      match payDescEarly eaf s1 with
      | .error e => .error e
      | .ok (payDesc, tt, s2) =>
        match bitsval payDesc 5 (if tt ≠ 0 then 32 else 16) with
        | none => .error (.bitsErr, s2)
        | some _gnssTimeTag =>
          if eaf ≠ 0 then
            match authIndEarly payDesc tt, embAuthLenEarly payDesc tt with
            | some authInd, some embAuthLen =>
              parseTailEarly pre framestart payDesc nData crcType eaf authInd
                embAuthLen s2
            | _, _ => .error (.bitsErr, s2)
          else parseTailEarly pre framestart payDesc nData crcType eaf 0 0 s2
    | _, _, _, _, _ => .error (.bitsErr, s1)

/-- `read()` of the later reader variant (`src/pyspartn/spartnreader.py`
lines 100-135), with the stream state made explicit and a fuel argument
bounding the loop (each iteration consumes at least one byte, so any fuel
above the stream length is enough).  `log` accumulates the error strings
handed to `_do_error` when `quitonerror = 1` (printing / the error handler);
with `quitonerror = 2` the error is re-raised (`.error`), with
`quitonerror = 0` nothing is recorded.  EOF during parsing returns
`(None, None)`, modelled as `none`.  The Python code assigns
`parsed_data = str(err)` after a handled error, but the `while parsing` loop
then starts over and overwrites both variables, so the assignment never
reaches the caller and is not represented. -/
def readLate (v q : Nat) : Nat → List Nat → List PErr →
    Except (PErr × List Nat) (Option (List Nat × Parsed) × List Nat × List PErr)
  | 0, s, log => .ok (none, s, log)
  | fuel + 1, s, log =>
    match readBytes 1 s with
    | none => .ok (none, [], log)
    | some (b1, s1) =>
      if b1 = SPARTN_PREB then
        match parseSpartnLate v b1 s1 with
        | .ok (raw, parsed, s2) => .ok (some (raw, parsed), s2, log)
        | .error (.eof, _) => .ok (none, [], log)
        | .error (e, s2) =>
          if q = 2 then .error (e, s2)
          else readLate v q fuel s2 (if q = 1 then log ++ [e] else log)
      else
        if q = 2 then .error (.unknownProtocol b1, s1)
        else readLate v q fuel s1
          (if q = 1 then log ++ [.unknownProtocol b1] else log)

/-- `read()` of the later variant at the standard fuel (stream length + 1). -/
def readL (v q : Nat) (s : List Nat) :
    Except (PErr × List Nat)
      (Option (List Nat × Parsed) × List Nat × List PErr) :=
  readLate v q (s.length + 1) s []

/-- `read()` of the earlier reader variant (`pyspartn/spartnreader.py`
lines 79-112).  Only `EOFError` is caught (returning `(None, None)`); other
parse errors propagate.  A non-preamble byte raises with `quitonerror = 2`,
is returned as `(byte, error text)` with `quitonerror = 1`, and is silently
discarded otherwise. -/
def readEarly (q : Nat) : Nat → List Nat →
    Except (PErr × List Nat) (Option (List Nat × Parsed) × List Nat)
  | 0, s => .ok (none, s)
  | fuel + 1, s =>
    match readBytes 1 s with
    | none => .ok (none, [])
    | some (b1, s1) =>
      if b1 = SPARTN_PREB then
        match parseSpartnEarly b1 s1 with
        | .ok (raw, parsed, s2) => .ok (some (raw, parsed), s2)
        | .error (.eof, _) => .ok (none, [])
        | .error (e, s2) => .error (e, s2)
      else
        if q = 2 then .error (.unknownProtocol b1, s1)
        else if q = 1 then
          .ok (some (b1, Parsed.errText (.unknownProtocol b1)), s1)
        else readEarly q fuel s1

/-- `read()` of the earlier variant at the standard fuel. -/
def readEL (q : Nat) (s : List Nat) :
    Except (PErr × List Nat) (Option (List Nat × Parsed) × List Nat) :=
  readEarly q (s.length + 1) s

/-- `iterate()` of the later reader variant (`src/pyspartn/spartnreader.py`
lines, via `__next__`): repeatedly call `read()`; stop on `(None, None)`
(`StopIteration`); an error raised out of `read()` (reader `quitonerror = 2`)
is re-raised when the iterator's own `quitonerror` is 2 and otherwise handled,
after which the loop continues. -/
def iterateLate (v qr qi : Nat) : Nat → List Nat →
    Except (PErr × List Nat) (List (List Nat × Parsed))
  | 0, _ => .ok []
  | fuel + 1, s =>
    match readL v qr s with
    | .ok (none, _, _) => .ok []
    | .ok (some pr, rest, _) =>
      match iterateLate v qr qi fuel rest with
      | .ok l => .ok (pr :: l)
      | .error e => .error e
    | .error (e, rest) =>
      if qi = 2 then .error (e, rest)
      else iterateLate v qr qi fuel rest

/-- Construction-time error of the reader (`exceptions.ParameterError`). -/
inductive InitErr where
  | parameterError
  deriving DecidableEq, Repr

/-- Constructor of the later reader variant (`src/pyspartn/spartnreader.py`
lines 53-79): the effective key is the `key` argument, falling back to the
`MQTTKEY` environment variable; decryption enabled without a key raises
`ParameterError`.  The datastream is returned untouched: the constructor
reads no byte from it. -/
def initReader (datastream : List Nat) (validate quitonerror : Nat)
    (decrypt : Bool) (keyArg envKey : Option String) :
    Except InitErr ((Nat × Nat × Bool × Option String) × List Nat) :=
  let key := match keyArg with
    | some k => some k
    | none => envKey
  if decrypt ∧ key = none then .error .parameterError
  else .ok ((validate, quitonerror, decrypt, key), datastream)

/-- The seven byte segments of one SPARTN transport frame after the preamble,
with the payload descriptor split into the baseline 4 bytes `pd0`, the 2-byte
time-tag extension `pdTT` and the 2-byte encryption extension `pdEAF`. -/
structure FrameParts where
  framestart : List Nat
  pd0 : List Nat
  pdTT : List Nat
  pdEAF : List Nat
  payload : List Nat
  embAuth : List Nat
  crcb : List Nat

/-- `nData` field of a framestart (bits 7-16). -/
def nDataOf (fs : List Nat) : Nat := (bitsval fs 7 10).getD 0

/-- `eaf` field of a framestart (bit 17). -/
def eafOf (fs : List Nat) : Nat := (bitsval fs 17 1).getD 0

/-- `crcType` field of a framestart (bits 18-19). -/
def crcTypeOf (fs : List Nat) : Nat := (bitsval fs 18 2).getD 0

/-- `timeTagtype` field of a payload descriptor (bit 4). -/
def ttOf (pd0 : List Nat) : Nat := (bitsval pd0 4 1).getD 0

/-- The assembled payload descriptor of a frame. -/
def pdFull (p : FrameParts) : List Nat := p.pd0 ++ p.pdTT ++ p.pdEAF

/-- The CRC-covered bytes of a frame:
`framestart ++ payDesc ++ payload ++ embAuth`. -/
def coreOf (p : FrameParts) : List Nat :=
  p.framestart ++ pdFull p ++ p.payload ++ p.embAuth

/-- The frame bytes after the preamble. -/
def frameBody (p : FrameParts) : List Nat := coreOf p ++ p.crcb

/-- `authInd` as the later parser sees it: the extracted bits when `eaf` is
set, and the initialisation value 0 otherwise. -/
def authIndP (p : FrameParts) : Nat :=
  if eafOf p.framestart ≠ 0 then (authIndLate (pdFull p) (ttOf p.pd0)).getD 0
  else 0

/-- `embAuthLen` as extracted by the later parser (meaningful when `eaf` is
set). -/
def embAuthLenP (p : FrameParts) : Nat :=
  (embAuthLenLate (pdFull p) (ttOf p.pd0)).getD 0

/-- Structural well-formedness of frame parts with respect to the later
reader variant: all bytes are below 256 and every segment has the length the
header bits dictate. -/
def partsOkLate (p : FrameParts) : Bool :=
  p.framestart.length == 3 &&
  (frameBody p).all (fun b => b < 256) &&
  p.pd0.length == 4 &&
  p.pdTT.length == (if ttOf p.pd0 ≠ 0 then 2 else 0) &&
  p.pdEAF.length == (if eafOf p.framestart ≠ 0 then 2 else 0) &&
  p.payload.length == nDataOf p.framestart &&
  p.embAuth.length == (if authIndP p > 1 then alnLate (embAuthLenP p) else 0) &&
  p.crcb.length == crcTypeOf p.framestart + 1

theorem readBytes_exact (a r : List Nat) :
    readBytes a.length (a ++ r) = some (a, r) := by
  induction a with
  | nil => rfl
  | cons b a ih => simp [readBytes, ih]

theorem readBytes_inv {n : Nat} {s a t : List Nat}
    (h : readBytes n s = some (a, t)) : s = a ++ t ∧ a.length = n := by
  induction n generalizing s a t with
  | zero =>
    simp only [readBytes, Option.some.injEq, Prod.mk.injEq] at h
    simp [← h.1, ← h.2]
  | succ n ih =>
    match s with
    | [] => simp [readBytes] at h
    | b :: s' =>
      simp only [readBytes] at h
      cases hr : readBytes n s' with
      | none => rw [hr] at h; simp at h
      | some p =>
        obtain ⟨a', r⟩ := p
        rw [hr] at h
        simp only [Option.some.injEq, Prod.mk.injEq] at h
        obtain ⟨ha, ht⟩ := h
        obtain ⟨hs, hl⟩ := ih hr
        subst ha ht hs
        simp [hl]

theorem readBytes_take {n : Nat} {s : List Nat} (h : n ≤ s.length) :
    readBytes n s = some (s.take n, s.drop n) := by
  have := readBytes_exact (s.take n) (s.drop n)
  rwa [List.take_append_drop, List.length_take, Nat.min_eq_left h] at this

theorem readBytes_none {n : Nat} {s : List Nat} (h : s.length < n) :
    readBytes n s = none := by
  induction n generalizing s with
  | zero => omega
  | succ n ih =>
    match s with
    | [] => rfl
    | b :: s' =>
      simp only [readBytes]
      rw [ih (by simpa using Nat.lt_of_succ_lt_succ h)]

theorem fromBytesBE_acc (l : List Nat) (acc : Nat) :
    List.foldl (fun acc b => acc * 256 + b) acc l =
      acc * 256 ^ l.length + fromBytesBE l := by
  induction l generalizing acc with
  | nil => simp [fromBytesBE]
  | cons x l ih =>
    simp only [List.foldl_cons, List.length_cons, fromBytesBE]
    rw [ih (acc * 256 + x), ih (0 * 256 + x)]
    ring

theorem fromBytesBE_cons (x : Nat) (l : List Nat) :
    fromBytesBE (x :: l) = x * 256 ^ l.length + fromBytesBE l := by
  simp only [fromBytesBE, List.foldl_cons]
  simpa using fromBytesBE_acc l x

theorem fromBytesBE_append (a b : List Nat) :
    fromBytesBE (a ++ b) = fromBytesBE a * 256 ^ b.length + fromBytesBE b := by
  simp only [fromBytesBE, List.foldl_append]
  exact fromBytesBE_acc b _

theorem fromBytesBE_lt {l : List Nat} (h : ∀ x ∈ l, x < 256) :
    fromBytesBE l < 256 ^ l.length := by
  induction l with
  | nil => simp [fromBytesBE]
  | cons x l ih =>
    rw [fromBytesBE_cons]
    have hx : x < 256 := h x (by simp)
    have hl : fromBytesBE l < 256 ^ l.length := ih (fun y hy => h y (by simp [hy]))
    have : x * 256 ^ l.length + fromBytesBE l < (x + 1) * 256 ^ l.length := by
      nlinarith [pow_pos (by norm_num : (0:ℕ) < 256) l.length]
    calc x * 256 ^ l.length + fromBytesBE l
        < (x + 1) * 256 ^ l.length := this
      _ ≤ 256 * 256 ^ l.length := by
          exact Nat.mul_le_mul_right _ (by omega)
      _ = 256 ^ (x :: l).length := by rw [List.length_cons]; ring

theorem fromBytesBE_inj {a b : List Nat} (hlen : a.length = b.length)
    (ha : ∀ x ∈ a, x < 256) (hb : ∀ x ∈ b, x < 256)
    (h : fromBytesBE a = fromBytesBE b) : a = b := by
  induction a generalizing b with
  | nil =>
    match b with
    | [] => rfl
    | y :: b' => simp at hlen
  | cons x a' ih =>
    match b with
    | [] => simp at hlen
    | y :: b' =>
      simp only [List.length_cons, Nat.succ.injEq] at hlen
      rw [fromBytesBE_cons, fromBytesBE_cons, hlen] at h
      have hA : fromBytesBE a' < 256 ^ b'.length := by
        rw [← hlen]; exact fromBytesBE_lt (fun z hz => ha z (by simp [hz]))
      have hB : fromBytesBE b' < 256 ^ b'.length :=
        fromBytesBE_lt (fun z hz => hb z (by simp [hz]))
      have hxy : x = y := by
        have h1 : (x * 256 ^ b'.length + fromBytesBE a') / 256 ^ b'.length =
            (y * 256 ^ b'.length + fromBytesBE b') / 256 ^ b'.length := by
          rw [h]
        have hp : 0 < (256 : ℕ) ^ b'.length := pow_pos (by norm_num) _
        rw [Nat.mul_comm x, Nat.mul_comm y, Nat.mul_add_div hp, Nat.mul_add_div hp,
            Nat.div_eq_of_lt hA, Nat.div_eq_of_lt hB] at h1
        simpa using h1
      subst hxy
      have hAB : fromBytesBE a' = fromBytesBE b' := by omega
      rw [ih hlen (fun z hz => ha z (by simp [hz]))
        (fun z hz => hb z (by simp [hz])) hAB]

theorem bitsval_some {buf : List Nat} {pos width : Nat}
    (h : pos + width ≤ 8 * buf.length) :
    bitsval buf pos width =
      some ((fromBytesBE buf >>> (8 * buf.length - pos - width)) % 2 ^ width) := by
  unfold bitsval
  rw [if_neg (by omega)]

theorem bitsval_append_left {a b : List Nat} {pos width : Nat}
    (h : pos + width ≤ 8 * a.length) (hb : ∀ x ∈ b, x < 256) :
    bitsval (a ++ b) pos width = bitsval a pos width := by
  rw [bitsval_some h, bitsval_some (by rw [List.length_append]; omega)]
  congr 1
  have hB : fromBytesBE b < 2 ^ (8 * b.length) := by
    have h1 := fromBytesBE_lt hb
    have h2 : (256 : ℕ) ^ b.length = 2 ^ (8 * b.length) := by
      rw [pow_mul]; norm_num
    omega
  have hlen : 8 * (a ++ b).length - pos - width =
      (8 * a.length - pos - width) + 8 * b.length := by
    rw [List.length_append]; omega
  rw [hlen, fromBytesBE_append]
  have h256 : (256 : ℕ) ^ b.length = 2 ^ (8 * b.length) := by
    rw [pow_mul]; norm_num
  rw [h256, Nat.shiftRight_eq_div_pow, Nat.shiftRight_eq_div_pow, pow_add,
      Nat.mul_comm (2 ^ (8 * a.length - pos - width)), ← Nat.div_div_eq_div_mul,
      Nat.mul_comm (fromBytesBE a),
      Nat.mul_add_div (pow_pos (by norm_num) _), Nat.div_eq_of_lt hB,
      Nat.add_zero]

theorem xor_byte_lt {x y : Nat} (hx : x < 256) (hy : y < 256) :
    x ^^^ y < 256 := by
  have h8 : (256 : ℕ) = 2 ^ 8 := by norm_num
  rw [h8] at hx hy ⊢
  exact Nat.xor_lt_two_pow hx hy

theorem xor_ne_self {x y : Nat} (hy : y ≠ 0) : x ^^^ y ≠ x := by
  intro h
  apply hy
  have := congrArg (fun z => x ^^^ z) h
  simpa [← Nat.xor_assoc] using this

theorem zipWith_xor_ne {a m : List Nat} (hlen : m.length = a.length)
    (hm : ∃ x ∈ m, x ≠ 0) : a.zipWith (· ^^^ ·) m ≠ a := by
  induction a generalizing m with
  | nil =>
    match m with
    | [] => simp at hm
    | y :: m' => simp at hlen
  | cons x a' ih =>
    match m with
    | [] => simp at hm
    | y :: m' =>
      simp only [List.zipWith_cons_cons, ne_eq, List.cons.injEq, not_and]
      intro hx
      by_cases hy : y = 0
      · subst hy
        obtain ⟨z, hz, hz0⟩ := hm
        simp only [List.mem_cons] at hz
        rcases hz with h0 | hz'
        · exact absurd h0 hz0
        · exact ih (by simpa using hlen) ⟨z, hz', hz0⟩
      · exact absurd hx (xor_ne_self hy)

theorem bitsval_getD_some {buf : List Nat} {pos width : Nat}
    (h : pos + width ≤ 8 * buf.length) :
    bitsval buf pos width = some ((bitsval buf pos width).getD 0) := by
  rw [bitsval_some h]
  rfl

theorem nDataOf_some {fs : List Nat} (h : fs.length = 3) :
    bitsval fs 7 10 = some (nDataOf fs) :=
  bitsval_getD_some (by omega)

theorem eafOf_some {fs : List Nat} (h : fs.length = 3) :
    bitsval fs 17 1 = some (eafOf fs) :=
  bitsval_getD_some (by omega)

theorem crcTypeOf_some {fs : List Nat} (h : fs.length = 3) :
    bitsval fs 18 2 = some (crcTypeOf fs) :=
  bitsval_getD_some (by omega)

theorem ttOf_some {pd0 : List Nat} (h : pd0.length = 4) :
    bitsval pd0 4 1 = some (ttOf pd0) :=
  bitsval_getD_some (by omega)

theorem payDescLate_parts (eaf : Nat) (pd0 pdTT pdEAF tail : List Nat)
    (h4 : pd0.length = 4)
    (hTT : pdTT.length = if ttOf pd0 ≠ 0 then 2 else 0)
    (hEAF : pdEAF.length = if eaf ≠ 0 then 2 else 0) :
    payDescLate eaf (pd0 ++ (pdTT ++ (pdEAF ++ tail))) =
      .ok (pd0 ++ pdTT ++ pdEAF, ttOf pd0, tail) := by
  have h1 : readBytes 4 (pd0 ++ (pdTT ++ (pdEAF ++ tail))) =
      some (pd0, pdTT ++ (pdEAF ++ tail)) := by
    rw [← h4]; exact readBytes_exact _ _
  by_cases htt : ttOf pd0 ≠ 0
  · rw [if_pos htt] at hTT
    have h2 : readBytes 2 (pdTT ++ (pdEAF ++ tail)) =
        some (pdTT, pdEAF ++ tail) := by
      rw [← hTT]; exact readBytes_exact _ _
    by_cases heaf : eaf ≠ 0
    · rw [if_pos heaf] at hEAF
      have h3 : readBytes 2 (pdEAF ++ tail) = some (pdEAF, tail) := by
        rw [← hEAF]; exact readBytes_exact _ _
      simp only [payDescLate, h1, ttOf_some h4, if_pos htt, h2, if_pos heaf, h3]
    · rw [if_neg heaf] at hEAF
      have hnil : pdEAF = [] := List.length_eq_zero.mp hEAF
      subst hnil
      simp only [List.nil_append, List.append_nil] at h1 h2 ⊢
      simp only [payDescLate, h1, ttOf_some h4, if_pos htt, h2, if_neg heaf]
  · rw [if_neg htt] at hTT
    have hnil : pdTT = [] := List.length_eq_zero.mp hTT
    subst hnil
    by_cases heaf : eaf ≠ 0
    · rw [if_pos heaf] at hEAF
      have h3 : readBytes 2 (pdEAF ++ tail) = some (pdEAF, tail) := by
        rw [← hEAF]; exact readBytes_exact _ _
      simp only [List.nil_append, List.append_nil] at h1 h3 ⊢
      simp only [payDescLate, h1, ttOf_some h4, if_neg htt, if_pos heaf, h3,
        List.append_nil, List.nil_append]
    · rw [if_neg heaf] at hEAF
      have hnil : pdEAF = [] := List.length_eq_zero.mp hEAF
      subst hnil
      simp only [List.nil_append, List.append_nil] at h1 ⊢
      simp only [payDescLate, h1, ttOf_some h4, if_neg htt, if_neg heaf,
        List.append_nil, List.nil_append]

theorem authIndLate_some {pd : List Nat} {tt : Nat}
    (h : (if tt ≠ 0 then 32 else 16) + 29 ≤ 8 * pd.length) :
    authIndLate pd tt = some ((authIndLate pd tt).getD 0) := by
  unfold authIndLate
  by_cases htt : tt ≠ 0
  · rw [if_pos htt] at h ⊢
    exact bitsval_getD_some (by omega)
  · rw [if_neg htt] at h ⊢
    exact bitsval_getD_some (by omega)

theorem embAuthLenLate_some {pd : List Nat} {tt : Nat}
    (h : (if tt ≠ 0 then 32 else 16) + 32 ≤ 8 * pd.length) :
    embAuthLenLate pd tt = some ((embAuthLenLate pd tt).getD 0) := by
  unfold embAuthLenLate
  by_cases htt : tt ≠ 0
  · rw [if_pos htt] at h ⊢
    exact bitsval_getD_some (by omega)
  · rw [if_neg htt] at h ⊢
    exact bitsval_getD_some (by omega)

theorem parseTailLate_parts (v : Nat)
    (pre fs pdesc payload embAuth crcb r : List Nat)
    (nData crcType authInd embAuthLen : Nat)
    (hpl : payload.length = nData)
    (hea : embAuth.length = if authInd > 1 then alnLate embAuthLen else 0)
    (hcb : crcb.length = crcType + 1) :
    parseTailLate v pre fs pdesc nData crcType authInd embAuthLen
        (payload ++ (embAuth ++ (crcb ++ r))) =
      if v &&& VALCRC ≠ 0 ∧
          valid_crc (fs ++ pdesc ++ payload ++ embAuth) (fromBytesBE crcb)
            crcType = false then
        .error (.invalidCRC (fromBytesBE crcb), r)
      else
        .ok (pre ++ (fs ++ pdesc ++ payload ++ embAuth) ++ crcb,
          Parsed.msg (pre ++ (fs ++ pdesc ++ payload ++ embAuth) ++ crcb),
          r) := by
  have h1 : readBytes nData (payload ++ (embAuth ++ (crcb ++ r))) =
      some (payload, embAuth ++ (crcb ++ r)) := by
    rw [← hpl]; exact readBytes_exact _ _
  by_cases haI : authInd > 1
  · rw [if_pos haI] at hea
    have h2 : readBytes (alnLate embAuthLen) (embAuth ++ (crcb ++ r)) =
        some (embAuth, crcb ++ r) := by
      rw [← hea]; exact readBytes_exact _ _
    have h3 : readBytes (crcType + 1) (crcb ++ r) = some (crcb, r) := by
      rw [← hcb]; exact readBytes_exact _ _
    simp only [parseTailLate, h1, if_pos haI, h2, h3]
  · rw [if_neg haI] at hea
    have hnil : embAuth = [] := List.length_eq_zero.mp hea
    subst hnil
    have h3 : readBytes (crcType + 1) (crcb ++ r) = some (crcb, r) := by
      rw [← hcb]; exact readBytes_exact _ _
    simp only [List.nil_append, List.append_nil] at h1 ⊢
    simp only [parseTailLate, h1, if_neg haI, h3, List.append_nil]

theorem parseLate_parts (p : FrameParts) (hok : partsOkLate p = true)
    (v : Nat) (pre r : List Nat) :
    parseSpartnLate v pre (frameBody p ++ r) =
      if v &&& VALCRC ≠ 0 ∧
          valid_crc (coreOf p) (fromBytesBE p.crcb)
            (crcTypeOf p.framestart) = false then
        .error (.invalidCRC (fromBytesBE p.crcb), r)
      else
        .ok (pre ++ frameBody p, Parsed.msg (pre ++ frameBody p), r) := by
  simp only [partsOkLate, Bool.and_eq_true, beq_iff_eq] at hok
  obtain ⟨⟨⟨⟨⟨⟨⟨hfs, hall⟩, h4⟩, hTT⟩, hEAF⟩, hpl⟩, hea⟩, hcb⟩ := hok
  have hstream : frameBody p ++ r =
      p.framestart ++ (p.pd0 ++ (p.pdTT ++ (p.pdEAF ++
        (p.payload ++ (p.embAuth ++ (p.crcb ++ r)))))) := by
    simp [frameBody, coreOf, pdFull, List.append_assoc]
  rw [hstream]
  have hrb3 : readBytes 3
      (p.framestart ++ (p.pd0 ++ (p.pdTT ++ (p.pdEAF ++
        (p.payload ++ (p.embAuth ++ (p.crcb ++ r))))))) =
      some (p.framestart, p.pd0 ++ (p.pdTT ++ (p.pdEAF ++
        (p.payload ++ (p.embAuth ++ (p.crcb ++ r)))))) := by
    rw [← hfs]; exact readBytes_exact _ _
  have hpd := payDescLate_parts (eafOf p.framestart) p.pd0 p.pdTT p.pdEAF
    (p.payload ++ (p.embAuth ++ (p.crcb ++ r))) h4 hTT hEAF
  have hpdlen : (p.pd0 ++ p.pdTT ++ p.pdEAF).length =
      4 + (if ttOf p.pd0 ≠ 0 then 2 else 0) +
        (if eafOf p.framestart ≠ 0 then 2 else 0) := by
    simp only [List.length_append, h4, hTT, hEAF]
  by_cases heaf : eafOf p.framestart ≠ 0
  · rw [if_pos heaf] at hpdlen
    have haI : authIndLate (p.pd0 ++ p.pdTT ++ p.pdEAF) (ttOf p.pd0) =
        some ((authIndLate (p.pd0 ++ p.pdTT ++ p.pdEAF) (ttOf p.pd0)).getD 0) :=
      authIndLate_some
        (by rw [hpdlen]; by_cases htt : ttOf p.pd0 ≠ 0 <;> simp [htt])
    have heal : embAuthLenLate (p.pd0 ++ p.pdTT ++ p.pdEAF) (ttOf p.pd0) =
        some ((embAuthLenLate (p.pd0 ++ p.pdTT ++ p.pdEAF)
          (ttOf p.pd0)).getD 0) :=
      embAuthLenLate_some
        (by rw [hpdlen]; by_cases htt : ttOf p.pd0 ≠ 0 <;> simp [htt])
    have hea' : p.embAuth.length =
        if (authIndLate (p.pd0 ++ p.pdTT ++ p.pdEAF) (ttOf p.pd0)).getD 0 > 1
        then alnLate ((embAuthLenLate (p.pd0 ++ p.pdTT ++ p.pdEAF)
          (ttOf p.pd0)).getD 0)
        else 0 := by
      simpa only [authIndP, embAuthLenP, pdFull, if_pos heaf] using hea
    have htail := parseTailLate_parts v pre p.framestart
      (p.pd0 ++ p.pdTT ++ p.pdEAF) p.payload p.embAuth p.crcb r
      (nDataOf p.framestart) (crcTypeOf p.framestart)
      ((authIndLate (p.pd0 ++ p.pdTT ++ p.pdEAF) (ttOf p.pd0)).getD 0)
      ((embAuthLenLate (p.pd0 ++ p.pdTT ++ p.pdEAF) (ttOf p.pd0)).getD 0)
      hpl hea' hcb
    simp only [parseSpartnLate, hrb3, nDataOf_some hfs, eafOf_some hfs,
      crcTypeOf_some hfs, hpd, if_pos heaf]
    rw [haI, heal]
    simp only []
    rw [htail]
    simp only [frameBody, coreOf, pdFull, List.append_assoc]
  · rw [if_neg heaf] at hpdlen
    have haIP : authIndP p = 0 := by simp [authIndP, heaf]
    have hea' : p.embAuth.length = if (0 : Nat) > 1 then alnLate 0 else 0 := by
      rw [haIP] at hea
      simpa using hea
    have htail := parseTailLate_parts v pre p.framestart
      (p.pd0 ++ p.pdTT ++ p.pdEAF) p.payload p.embAuth p.crcb r
      (nDataOf p.framestart) (crcTypeOf p.framestart) 0 0 hpl hea' hcb
    simp only [parseSpartnLate, hrb3, nDataOf_some hfs, eafOf_some hfs,
      crcTypeOf_some hfs, hpd, if_neg heaf]
    rw [htail]
    simp only [frameBody, coreOf, pdFull, List.append_assoc]

/-- A byte list is one valid frame for the later reader variant under
validation mode `v`: it starts with the preamble and `_parse_spartn` consumes
exactly its remaining bytes, whatever follows, returning it as the raw frame
together with the `SPARTNMessage` stub. -/
def ValidFrame (v : Nat) (f : List Nat) : Prop :=
  ∃ t, f = SPARTN_PREB ++ t ∧
    ∀ r, parseSpartnLate v SPARTN_PREB (t ++ r) =
      .ok (f, Parsed.msg f, r)

/-- A byte list is one valid frame for the earlier reader variant. -/
def ValidFrameE (f : List Nat) : Prop :=
  ∃ t, f = SPARTN_PREB ++ t ∧
    ∀ r, parseSpartnEarly SPARTN_PREB (t ++ r) =
      .ok (f, Parsed.msg f, r)

theorem readLate_success {v : Nat} {t r raw : List Nat} {pd : Parsed}
    (h : parseSpartnLate v SPARTN_PREB (t ++ r) = .ok (raw, pd, r))
    (q fuel : Nat) (log : List PErr) :
    readLate v q (fuel + 1) ((SPARTN_PREB ++ t) ++ r) log =
      .ok (some (raw, pd), r, log) := by
  have hrb : readBytes 1 ((SPARTN_PREB ++ t) ++ r) =
      some (SPARTN_PREB, t ++ r) := by
    rw [List.append_assoc]
    exact readBytes_exact SPARTN_PREB (t ++ r)
  simp only [readLate, hrb]
  rw [if_pos trivial, h]

theorem readLate_eof {v : Nat} {t x : List Nat}
    (h : parseSpartnLate v SPARTN_PREB t = .error (.eof, x))
    (q fuel : Nat) (log : List PErr) :
    readLate v q (fuel + 1) (SPARTN_PREB ++ t) log = .ok (none, [], log) := by
  have hrb : readBytes 1 (SPARTN_PREB ++ t) = some (SPARTN_PREB, t) :=
    readBytes_exact SPARTN_PREB t
  simp only [readLate, hrb]
  rw [if_pos trivial, h]

theorem readLate_err_continue {v q : Nat} {t s2 : List Nat} {e : PErr}
    (h : parseSpartnLate v SPARTN_PREB t = .error (e, s2))
    (he : e ≠ .eof) (hq : q ≠ 2) (fuel : Nat) (log : List PErr) :
    readLate v q (fuel + 1) (SPARTN_PREB ++ t) log =
      readLate v q fuel s2 (if q = 1 then log ++ [e] else log) := by
  have hrb : readBytes 1 (SPARTN_PREB ++ t) = some (SPARTN_PREB, t) :=
    readBytes_exact SPARTN_PREB t
  match e, he with
  | .unknownProtocol b, _ =>
    simp only [readLate, hrb]
    rw [if_pos trivial, h]
    simp only [if_neg hq]
  | .invalidCRC c, _ =>
    simp only [readLate, hrb]
    rw [if_pos trivial, h]
    simp only [if_neg hq]
  | .bitsErr, _ =>
    simp only [readLate, hrb]
    rw [if_pos trivial, h]
    simp only [if_neg hq]

theorem readLate_err_raise {v : Nat} {t s2 : List Nat} {e : PErr}
    (h : parseSpartnLate v SPARTN_PREB t = .error (e, s2))
    (he : e ≠ .eof) (fuel : Nat) (log : List PErr) :
    readLate v 2 (fuel + 1) (SPARTN_PREB ++ t) log = .error (e, s2) := by
  have hrb : readBytes 1 (SPARTN_PREB ++ t) = some (SPARTN_PREB, t) :=
    readBytes_exact SPARTN_PREB t
  match e, he with
  | .unknownProtocol b, _ =>
    simp only [readLate, hrb]
    rw [if_pos trivial, h]
    simp
  | .invalidCRC c, _ =>
    simp only [readLate, hrb]
    rw [if_pos trivial, h]
    simp
  | .bitsErr, _ =>
    simp only [readLate, hrb]
    rw [if_pos trivial, h]
    simp

theorem readLate_skip {v q : Nat} (hq : q ≤ 1) :
    ∀ (g : List Nat), (∀ b ∈ g, b ≠ 115) →
    ∀ (fuel : Nat) (s : List Nat) (log : List PErr),
    readLate v q (g.length + fuel) (g ++ s) log =
      readLate v q fuel s
        (log ++ (if q = 1 then g.map (fun b => PErr.unknownProtocol [b])
                 else [])) := by
  intro g
  induction g with
  | nil =>
    intro _ fuel s log
    simp
  | cons b g ih =>
    intro hg fuel s log
    have hb : b ≠ 115 := hg b (by simp)
    have hrb : readBytes 1 (b :: (g ++ s)) = some ([b], g ++ s) := by
      simp [readBytes]
    have hlen : (b :: g).length + fuel = (g.length + fuel) + 1 := by
      simp [List.length_cons]; omega
    rw [hlen]
    have hne : ¬([b] = SPARTN_PREB) := by
      simp [SPARTN_PREB, hb]
    have hq2 : ¬(q = 2) := by omega
    simp only [readLate, List.cons_append, hrb, if_neg hne, if_neg hq2]
    rw [ih (fun x hx => hg x (by simp [hx])) fuel s]
    by_cases h1 : q = 1
    · simp [h1, List.map_cons]
    · simp [h1]

theorem readBytes_rest_le {n : Nat} {s a t : List Nat}
    (h : readBytes n s = some (a, t)) : t.length ≤ s.length := by
  obtain ⟨hs, -⟩ := readBytes_inv h
  subst hs
  simp

theorem payDescLate_ok_inv {eaf : Nat} {s pd s2 : List Nat} {tt : Nat}
    (h : payDescLate eaf s = .ok (pd, tt, s2)) :
    s = pd ++ s2 ∧
    pd.length = 4 + (if tt ≠ 0 then 2 else 0) + (if eaf ≠ 0 then 2 else 0) ∧
    bitsval (pd.take 4) 4 1 = some tt := by
  unfold payDescLate at h
  cases hrb : readBytes 4 s with
  | none => simp only [hrb] at h; cases h
  | some p =>
    obtain ⟨pd0, s1⟩ := p
    simp only [hrb] at h
    obtain ⟨hs, h40⟩ := readBytes_inv hrb
    cases hbv : bitsval pd0 4 1 with
    | none => simp only [hbv] at h; cases h
    | some tt' =>
      simp only [hbv] at h
      cases hif : (if tt' ≠ 0 then readBytes 2 s1 else some ([], s1)) with
      | none => simp only [hif] at h; cases h
      | some p2 =>
        obtain ⟨ext1, s2'⟩ := p2
        simp only [hif] at h
        have hext1 : s1 = ext1 ++ s2' ∧
            ext1.length = (if tt' ≠ 0 then 2 else 0) := by
          by_cases htt : tt' ≠ 0
          · rw [if_pos htt] at hif
            obtain ⟨ha, hb⟩ := readBytes_inv hif
            exact ⟨ha, by rw [if_pos htt]; exact hb⟩
          · rw [if_neg htt] at hif
            cases hif
            exact ⟨rfl, by rw [if_neg htt]; rfl⟩
        obtain ⟨hs1, hlen1⟩ := hext1
        by_cases heaf : eaf ≠ 0
        · rw [if_pos heaf] at h
          cases hrb2 : readBytes 2 s2' with
          | none => simp only [hrb2] at h; cases h
          | some p3 =>
            obtain ⟨ext2, s3⟩ := p3
            simp only [hrb2] at h
            cases h
            obtain ⟨hs2, hlen2⟩ := readBytes_inv hrb2
            refine ⟨?_, ?_, ?_⟩
            · rw [hs, hs1, hs2]
              simp [List.append_assoc]
            · simp only [List.length_append, hlen1, hlen2, h40, if_pos heaf]
            · have htake : (pd0 ++ ext1 ++ ext2).take 4 = pd0 := by
                rw [List.append_assoc, ← h40]
                exact List.take_left _ _
              rw [htake, hbv]
        · rw [if_neg heaf] at h
          cases h
          refine ⟨?_, ?_, ?_⟩
          · rw [hs, hs1]
            simp [List.append_assoc]
          · simp only [List.length_append, hlen1, h40, if_neg heaf]
            ring
          · have htake : (pd0 ++ ext1).take 4 = pd0 := by
              rw [← h40]
              exact List.take_left _ _
            rw [htake, hbv]

theorem payDescLate_rest_le {eaf : Nat} {s : List Nat} {x : PErr × List Nat}
    (h : payDescLate eaf s = .error x) : x.2.length ≤ s.length := by
  unfold payDescLate at h
  cases hrb : readBytes 4 s with
  | none => simp only [hrb] at h; cases h; simp
  | some p =>
    obtain ⟨pd0, s1⟩ := p
    simp only [hrb] at h
    have h1 : s1.length ≤ s.length := readBytes_rest_le hrb
    cases hbv : bitsval pd0 4 1 with
    | none => simp only [hbv] at h; cases h; simpa using h1
    | some tt =>
      simp only [hbv] at h
      cases hif : (if tt ≠ 0 then readBytes 2 s1 else some ([], s1)) with
      | none => simp only [hif] at h; cases h; simp
      | some p2 =>
        obtain ⟨ext1, s2'⟩ := p2
        simp only [hif] at h
        have h2 : s2'.length ≤ s1.length := by
          by_cases htt : tt ≠ 0
          · rw [if_pos htt] at hif
            exact readBytes_rest_le hif
          · rw [if_neg htt] at hif
            cases hif
            exact le_refl _
        by_cases heaf : eaf ≠ 0
        · rw [if_pos heaf] at h
          cases hrb2 : readBytes 2 s2' with
          | none => simp only [hrb2] at h; cases h; simp
          | some p3 =>
            obtain ⟨ext2, s3⟩ := p3
            simp only [hrb2] at h
            cases h
        · rw [if_neg heaf] at h
          cases h

theorem parseTailLate_ok_inv {v : Nat} {pre fs pdesc s raw s5 : List Nat}
    {nData crcType authInd embAuthLen : Nat} {pd : Parsed}
    (h : parseTailLate v pre fs pdesc nData crcType authInd embAuthLen s =
      .ok (raw, pd, s5)) :
    ∃ payload embAuth crcb : List Nat,
      s = payload ++ (embAuth ++ (crcb ++ s5)) ∧
      payload.length = nData ∧
      embAuth.length = (if authInd > 1 then alnLate embAuthLen else 0) ∧
      crcb.length = crcType + 1 ∧
      raw = pre ++ (fs ++ pdesc ++ payload ++ embAuth) ++ crcb ∧
      pd = Parsed.msg raw := by
  unfold parseTailLate at h
  cases hrb : readBytes nData s with
  | none => simp only [hrb] at h; cases h
  | some p =>
    obtain ⟨payload, s3⟩ := p
    simp only [hrb] at h
    obtain ⟨hs3, hpl⟩ := readBytes_inv hrb
    cases hif : (if authInd > 1 then readBytes (alnLate embAuthLen) s3
                 else some ([], s3)) with
    | none => simp only [hif] at h; cases h
    | some p2 =>
      obtain ⟨embAuth, s4⟩ := p2
      simp only [hif] at h
      have hea : s3 = embAuth ++ s4 ∧
          embAuth.length = (if authInd > 1 then alnLate embAuthLen else 0) := by
        by_cases haI : authInd > 1
        · rw [if_pos haI] at hif
          obtain ⟨ha, hb⟩ := readBytes_inv hif
          exact ⟨ha, by rw [if_pos haI]; exact hb⟩
        · rw [if_neg haI] at hif
          cases hif
          exact ⟨rfl, by rw [if_neg haI]; rfl⟩
      obtain ⟨hs4, hlenea⟩ := hea
      cases hrb2 : readBytes (crcType + 1) s4 with
      | none => simp only [hrb2] at h; cases h
      | some p3 =>
        obtain ⟨crcb, s5'⟩ := p3
        simp only [hrb2] at h
        obtain ⟨hs5, hcb⟩ := readBytes_inv hrb2
        by_cases hcrc : v &&& VALCRC ≠ 0 ∧
            valid_crc (fs ++ pdesc ++ payload ++ embAuth) (fromBytesBE crcb)
              crcType = false
        · rw [if_pos hcrc] at h
          cases h
        · rw [if_neg hcrc] at h
          cases h
          exact ⟨payload, embAuth, crcb,
            by rw [hs3, hs4, hs5], hpl, hlenea, hcb, rfl, rfl⟩

theorem parseTailLate_rest_le {v : Nat} {pre fs pdesc s : List Nat}
    {nData crcType authInd embAuthLen : Nat} {x : PErr × List Nat}
    (h : parseTailLate v pre fs pdesc nData crcType authInd embAuthLen s =
      .error x) : x.2.length ≤ s.length := by
  unfold parseTailLate at h
  cases hrb : readBytes nData s with
  | none => simp only [hrb] at h; cases h; simp
  | some p =>
    obtain ⟨payload, s3⟩ := p
    simp only [hrb] at h
    have h1 : s3.length ≤ s.length := readBytes_rest_le hrb
    cases hif : (if authInd > 1 then readBytes (alnLate embAuthLen) s3
                 else some ([], s3)) with
    | none => simp only [hif] at h; cases h; simp
    | some p2 =>
      obtain ⟨embAuth, s4⟩ := p2
      simp only [hif] at h
      have h2 : s4.length ≤ s3.length := by
        by_cases haI : authInd > 1
        · rw [if_pos haI] at hif
          exact readBytes_rest_le hif
        · rw [if_neg haI] at hif
          cases hif
          exact le_refl _
      cases hrb2 : readBytes (crcType + 1) s4 with
      | none => simp only [hrb2] at h; cases h; simp
      | some p3 =>
        obtain ⟨crcb, s5'⟩ := p3
        simp only [hrb2] at h
        have h3 : s5'.length ≤ s4.length := readBytes_rest_le hrb2
        by_cases hcrc : v &&& VALCRC ≠ 0 ∧
            valid_crc (fs ++ pdesc ++ payload ++ embAuth) (fromBytesBE crcb)
              crcType = false
        · rw [if_pos hcrc] at h
          cases h
          simp only []
          omega
        · rw [if_neg hcrc] at h
          cases h

theorem parseLate_inv {v : Nat} {pre s raw r : List Nat} {pdres : Parsed}
    (h : parseSpartnLate v pre s = .ok (raw, pdres, r)) :
    ∃ (fs pdesc payload embAuth crcb : List Nat)
      (nD eaf ct tt aI eal : Nat),
      fs.length = 3 ∧
      bitsval fs 7 10 = some nD ∧
      bitsval fs 17 1 = some eaf ∧
      bitsval fs 18 2 = some ct ∧
      bitsval (pdesc.take 4) 4 1 = some tt ∧
      pdesc.length =
        4 + (if tt ≠ 0 then 2 else 0) + (if eaf ≠ 0 then 2 else 0) ∧
      (eaf ≠ 0 →
        authIndLate pdesc tt = some aI ∧ embAuthLenLate pdesc tt = some eal) ∧
      (eaf = 0 → aI = 0 ∧ eal = 0) ∧
      payload.length = nD ∧
      embAuth.length = (if aI > 1 then alnLate eal else 0) ∧
      crcb.length = ct + 1 ∧
      s = fs ++ (pdesc ++ (payload ++ (embAuth ++ (crcb ++ r)))) ∧
      raw = pre ++ (fs ++ pdesc ++ payload ++ embAuth) ++ crcb ∧
      pdres = Parsed.msg raw := by
  unfold parseSpartnLate at h
  cases hrb : readBytes 3 s with
  | none => simp only [hrb] at h; cases h
  | some p =>
    obtain ⟨fs, s1⟩ := p
    simp only [hrb] at h
    obtain ⟨hs1, hfs3⟩ := readBytes_inv hrb
    cases hb1 : bitsval fs 7 10 <;> cases hb2 : bitsval fs 17 1 <;>
      cases hb3 : bitsval fs 18 2 <;> simp only [hb1, hb2, hb3] at h <;>
      try cases h
    rename_i nD eaf ct
    cases hpd : payDescLate eaf s1 with
    | error e => simp only [hpd] at h; cases h
    | ok trip =>
      obtain ⟨pdesc, tt, s2⟩ := trip
      simp only [hpd] at h
      obtain ⟨hs2, hpdlen, htt⟩ := payDescLate_ok_inv hpd
      by_cases heaf : eaf ≠ 0
      · rw [if_pos heaf] at h
        cases haI : authIndLate pdesc tt <;>
          cases heal : embAuthLenLate pdesc tt <;>
          simp only [haI, heal] at h <;> try cases h
        rename_i aI eal
        obtain ⟨payload, embAuth, crcb, hseq, hpl, hlenea, hcb, hraw, hpd2⟩ :=
          parseTailLate_ok_inv h
        exact ⟨fs, pdesc, payload, embAuth, crcb, nD, eaf, ct, tt, aI, eal,
          hfs3, hb1, hb2, hb3, htt, hpdlen,
          fun _ => ⟨haI, heal⟩, fun h0 => absurd h0 heaf,
          hpl, hlenea, hcb, by rw [hs1, hs2, hseq], hraw, hpd2⟩
      · rw [if_neg heaf] at h
        obtain ⟨payload, embAuth, crcb, hseq, hpl, hlenea, hcb, hraw, hpd2⟩ :=
          parseTailLate_ok_inv h
        exact ⟨fs, pdesc, payload, embAuth, crcb, nD, eaf, ct, tt, 0, 0,
          hfs3, hb1, hb2, hb3, htt, hpdlen,
          fun hne => absurd hne heaf, fun _ => ⟨rfl, rfl⟩,
          hpl, hlenea, hcb, by rw [hs1, hs2, hseq], hraw, hpd2⟩

theorem parseLate_rest_le {v : Nat} {pre s : List Nat} {x : PErr × List Nat}
    (h : parseSpartnLate v pre s = .error x) : x.2.length ≤ s.length := by
  unfold parseSpartnLate at h
  cases hrb : readBytes 3 s with
  | none => simp only [hrb] at h; cases h; simp
  | some p =>
    obtain ⟨fs, s1⟩ := p
    simp only [hrb] at h
    have h1 : s1.length ≤ s.length := readBytes_rest_le hrb
    cases hb1 : bitsval fs 7 10 <;> cases hb2 : bitsval fs 17 1 <;>
      cases hb3 : bitsval fs 18 2 <;> simp only [hb1, hb2, hb3] at h <;>
      try (cases h; simpa using h1)
    rename_i nD eaf ct
    cases hpd : payDescLate eaf s1 with
    | error e =>
      simp only [hpd] at h
      cases h
      exact le_trans (payDescLate_rest_le hpd) h1
    | ok trip =>
      obtain ⟨pdesc, tt, s2⟩ := trip
      simp only [hpd] at h
      obtain ⟨hs2, -, -⟩ := payDescLate_ok_inv hpd
      have h2 : s2.length ≤ s1.length := by rw [hs2]; simp
      by_cases heaf : eaf ≠ 0
      · rw [if_pos heaf] at h
        cases haI : authIndLate pdesc tt <;>
          cases heal : embAuthLenLate pdesc tt <;>
          simp only [haI, heal] at h <;> try (cases h; exact le_trans h2 h1)
        exact le_trans (le_trans (parseTailLate_rest_le h) h2) h1
      · rw [if_neg heaf] at h
        exact le_trans (le_trans (parseTailLate_rest_le h) h2) h1

theorem readLate_q0_no_raise (v : Nat) :
    ∀ (fuel : Nat) (s : List Nat) (log : List PErr) (x : PErr × List Nat),
      readLate v 0 fuel s log ≠ .error x := by
  intro fuel
  induction fuel with
  | zero => intro s log x h; simp [readLate] at h
  | succ fuel ih =>
    intro s log x h
    simp only [readLate] at h
    cases hrb : readBytes 1 s with
    | none => simp only [hrb] at h; cases h
    | some p =>
      obtain ⟨b1, s1⟩ := p
      simp only [hrb] at h
      by_cases hpre : b1 = SPARTN_PREB
      · rw [if_pos hpre] at h
        cases hps : parseSpartnLate v b1 s1 with
        | ok t => simp only [hps] at h; cases h
        | error pr =>
          obtain ⟨e, s2⟩ := pr
          cases e with
          | eof => simp only [hps] at h; cases h
          | unknownProtocol b =>
            simp only [hps] at h
            rw [if_neg (by decide : ¬(0 : Nat) = 2)] at h
            exact ih _ _ _ h
          | invalidCRC c =>
            simp only [hps] at h
            rw [if_neg (by decide : ¬(0 : Nat) = 2)] at h
            exact ih _ _ _ h
          | bitsErr =>
            simp only [hps] at h
            rw [if_neg (by decide : ¬(0 : Nat) = 2)] at h
            exact ih _ _ _ h
      · rw [if_neg hpre, if_neg (by decide : ¬(0 : Nat) = 2)] at h
        exact ih _ _ _ h

theorem readLate_none_rest {v q : Nat} :
    ∀ (fuel : Nat) (s : List Nat) (log log' : List PErr) (r' : List Nat),
      s.length < fuel →
      readLate v q fuel s log = .ok (none, r', log') → r' = [] := by
  intro fuel
  induction fuel with
  | zero => intro s _ _ _ hlt _; omega
  | succ fuel ih =>
    intro s log log' r' hlt h
    simp only [readLate] at h
    cases hrb : readBytes 1 s with
    | none =>
      simp only [hrb] at h
      cases h
      rfl
    | some p =>
      obtain ⟨b1, s1⟩ := p
      simp only [hrb] at h
      obtain ⟨hs, hb1len⟩ := readBytes_inv hrb
      have hs1 : s1.length + 1 = s.length := by
        rw [hs, List.length_append, hb1len]
        omega
      by_cases hpre : b1 = SPARTN_PREB
      · rw [if_pos hpre] at h
        cases hps : parseSpartnLate v b1 s1 with
        | ok t =>
          obtain ⟨raw, pd, s2⟩ := t
          simp only [hps] at h
          cases h
        | error pr =>
          obtain ⟨e, s2⟩ := pr
          have hs2 : s2.length ≤ s1.length := parseLate_rest_le hps
          cases e with
          | eof =>
            simp only [hps] at h
            cases h
            rfl
          | unknownProtocol b =>
            simp only [hps] at h
            by_cases hq2 : q = 2
            · rw [if_pos hq2] at h; cases h
            · rw [if_neg hq2] at h
              exact ih _ _ _ _ (by omega) h
          | invalidCRC c =>
            simp only [hps] at h
            by_cases hq2 : q = 2
            · rw [if_pos hq2] at h; cases h
            · rw [if_neg hq2] at h
              exact ih _ _ _ _ (by omega) h
          | bitsErr =>
            simp only [hps] at h
            by_cases hq2 : q = 2
            · rw [if_pos hq2] at h; cases h
            · rw [if_neg hq2] at h
              exact ih _ _ _ _ (by omega) h
      · rw [if_neg hpre] at h
        by_cases hq2 : q = 2
        · rw [if_pos hq2] at h; cases h
        · rw [if_neg hq2] at h
          exact ih _ _ _ _ (by omega) h

theorem readEarly_success {t r raw : List Nat} {pd : Parsed}
    (h : parseSpartnEarly SPARTN_PREB (t ++ r) = .ok (raw, pd, r))
    (q fuel : Nat) :
    readEarly q (fuel + 1) ((SPARTN_PREB ++ t) ++ r) =
      .ok (some (raw, pd), r) := by
  have hrb : readBytes 1 ((SPARTN_PREB ++ t) ++ r) =
      some (SPARTN_PREB, t ++ r) := by
    rw [List.append_assoc]
    exact readBytes_exact SPARTN_PREB (t ++ r)
  simp only [readEarly, hrb]
  rw [if_pos trivial, h]

theorem readEarly_eof {t x : List Nat}
    (h : parseSpartnEarly SPARTN_PREB t = .error (.eof, x)) (q fuel : Nat) :
    readEarly q (fuel + 1) (SPARTN_PREB ++ t) = .ok (none, []) := by
  have hrb : readBytes 1 (SPARTN_PREB ++ t) = some (SPARTN_PREB, t) :=
    readBytes_exact SPARTN_PREB t
  simp only [readEarly, hrb]
  rw [if_pos trivial, h]

theorem readEarly_skip_q0 :
    ∀ (g : List Nat), (∀ b ∈ g, b ≠ 115) →
    ∀ (fuel : Nat) (s : List Nat),
    readEarly 0 (g.length + fuel) (g ++ s) = readEarly 0 fuel s := by
  intro g
  induction g with
  | nil => intro _ fuel s; simp
  | cons b g ih =>
    intro hg fuel s
    have hb : b ≠ 115 := hg b (by simp)
    have hrb : readBytes 1 (b :: (g ++ s)) = some ([b], g ++ s) := by
      simp [readBytes]
    have hlen : (b :: g).length + fuel = (g.length + fuel) + 1 := by
      simp [List.length_cons]; omega
    rw [hlen]
    have hne : ¬([b] = SPARTN_PREB) := by
      simp [SPARTN_PREB, hb]
    simp only [readEarly, List.cons_append, hrb, if_neg hne,
      if_neg (by decide : ¬(0 : Nat) = 2), if_neg (by decide : ¬(0 : Nat) = 1)]
    exact ih (fun x hx => hg x (by simp [hx])) fuel s

theorem iterateLate_frames {v qr qi : Nat} :
    ∀ (L : List (List Nat)) (fuel : Nat),
      (∀ f ∈ L, ValidFrame v f) →
      L.flatten.length + 1 ≤ fuel →
      iterateLate v qr qi fuel L.flatten =
        .ok (L.map fun f => (f, Parsed.msg f)) := by
  intro L
  induction L with
  | nil =>
    intro fuel _ hfuel
    cases fuel with
    | zero => omega
    | succ k => rfl
  | cons f L ih =>
    intro fuel hall hfuel
    obtain ⟨t, hft, hparse⟩ := hall f (by simp)
    have hf1 : 1 ≤ f.length := by rw [hft]; simp [SPARTN_PREB]
    have hjoin : (f :: L).flatten = (SPARTN_PREB ++ t) ++ L.flatten := by
      rw [List.flatten_cons, hft]
    cases fuel with
    | zero => omega
    | succ k =>
      rw [hjoin]
      have hread : readL v qr ((SPARTN_PREB ++ t) ++ L.flatten) =
          .ok (some (f, Parsed.msg f), L.flatten, []) := by
        unfold readL
        have hlen : ((SPARTN_PREB ++ t) ++ L.flatten).length + 1 =
            (t.length + L.flatten.length + 1) + 1 := by
          simp [SPARTN_PREB]
        rw [hlen]
        exact readLate_success (hparse L.flatten) qr _ []
      simp only [iterateLate, hread]
      rw [ih k (fun g hg => hall g (by simp [hg]))
        (by
          have hlen2 : (f :: L).flatten.length =
              f.length + L.flatten.length := by
            rw [List.flatten_cons, List.length_append]
          omega)]
      rfl

/-- Count source of a repeating group (`spartntypes_get.py`): a field
identifier whose decoded value is the count, the `NSAT` token, or a
`(fieldId, NB)` pair meaning the population count of that field's bits. -/
inductive CSrc where
  | fid (s : String)
  | nsat
  | nb (s : String)

/-- One entry of a payload schema dictionary of `spartntypes_get.py`, in
declaration order: a plain field, one of the three mask-length sentinel keys
(`NSATMASK`, `NPHABIASMASK`, `NCODBIASMASK`), a conditional block
(key starting `opt`, with predicate field and accepted values), or a
repeating group (key starting `group`). -/
inductive SEnt where
  | field (id desc : String)
  | nsatmask (desc : String)
  | nphabiasmask (desc : String)
  | ncodbiasmask (desc : String)
  | opt (key pf : String) (vals : List Nat) (sub : List SEnt)
  | grp (key : String) (c : CSrc) (sub : List SEnt)

/-- Scope admissibility of a count source: a `(fieldId, NB)` source must have
its field decoded earlier (present in the scope chain). -/
def csrcOK (scope : List String) : CSrc → Bool
  | .fid _ => true
  | .nsat => true
  | .nb f => scope.contains f

/-- Walk a schema in declaration order, carrying the plain field identifiers
decoded so far (the enclosing scope chain followed by the earlier keys of the
current dictionary).  Checks that every conditional's predicate field and
every `(fieldId, NB)` count source occurs as a plain field key earlier in the
scope chain.  This is the generous reading of the claim: a field decoded
earlier in ANY enclosing scope qualifies, not just the same dictionary.
`fuel` bounds the recursion depth (keeping the recursion structural, so the
checker evaluates by reduction); on exhaustion the check succeeds
optimistically, so a `false` verdict always exhibits a genuine scope
violation.  The fuel used for the registry far exceeds its entry count, so
it is never exhausted there. -/
def entsOK : Nat → List String → List SEnt → Bool
  | 0, _, _ => true
  | _ + 1, _, [] => true
  | fuel + 1, scope, .field id _ :: rest => entsOK fuel (scope ++ [id]) rest
  | fuel + 1, scope, .nsatmask _ :: rest => entsOK fuel scope rest
  | fuel + 1, scope, .nphabiasmask _ :: rest => entsOK fuel scope rest
  | fuel + 1, scope, .ncodbiasmask _ :: rest => entsOK fuel scope rest
  | fuel + 1, scope, .opt _ pf _ sub :: rest =>
    scope.contains pf && entsOK fuel scope sub && entsOK fuel scope rest
  | fuel + 1, scope, .grp _ c sub :: rest =>
    csrcOK scope c && entsOK fuel scope sub && entsOK fuel scope rest

/-- `OCB_HDR` of `spartntypes_get.py`. -/
def OCB_HDR : List SEnt := [
  .field "SF005" "Solution issue of update (SIOU)",
  .field "SF010" "End of set",
  .field "SF069" "Reserved",
  .field "SF008" "Yaw present flag",
  .field "SF009" "Satellite reference datum"]

/-- `HPAC_HDR` of `spartntypes_get.py`. -/
def HPAC_HDR : List SEnt := [
  .field "SF005" "Solution issue of update (SIOU)",
  .field "SF068" "Area issue of update (AIOU)",
  .field "SF069" "Reserved",
  .field "SF030" "Area count"]

/-- `ORBCLK_BLOCK` of `spartntypes_get.py`. -/
def ORBCLK_BLOCK : List SEnt := [
  .field "SF020R" "Orbit radial correction",
  .field "SF020A" "Orbit along-track correction",
  .field "SF020C" "Orbit cross-track correction",
  .field "SF021" "Satellite yaw",
  .field "SF022" "IODE continuity",
  .field "SF020" "Clock correction",
  .field "SF024" "User range error"]

/-- `PHAS_BIAS_BLOCK` of `spartntypes_get.py`. -/
def PHAS_BIAS_BLOCK : List SEnt := [
  .field "SF023" "Fix flag",
  .field "SF015" "Continuity indicator",
  .field "SF020PB" "Phase bias correction"]

/-- `AREA_DATA_BLOCK` of `spartntypes_get.py`. -/
def AREA_DATA_BLOCK : List SEnt := [
  .field "SF031" "Area ID",
  .field "SF039" "Number of grid points present",
  .field "SF040T" "Tropo blocks indicator",
  .field "SF040i" "Iono blocks indicator"]

/-- `TROP_DATA_BLOCK` of `spartntypes_get.py`. -/
def TROP_DATA_BLOCK : List SEnt := [
  .opt "optSF040T-12" "SF040T" [1, 2] [
    .field "SF041" "Troposhere equation type",
    .field "SF042" "Troposphere quality",
    .field "SF043" "Area average vertical hydrostatic delay",
    .field "SF044" "Troposphere polynomial coefficient size indicator",
    .opt "optSF044-0" "SF044" [0] [
      .field "SF045" "Troposphere coefficient T00",
      .opt "optSF041-12" "SF041" [1, 2] [
        .field "SF046a" "Troposphere coefficient T01",
        .field "SF046b" "Troposphere coefficient T10"],
      .opt "optSF041-2" "SF041" [2] [
        .field "SF047" "Troposphere coefficient T11"]],
    .opt "optSF044-1" "SF044" [1] [
      .field "SF048" "Troposphere coefficient T00",
      .opt "optSF041-12" "SF041" [1, 2] [
        .field "SF049a" "Troposphere coefficient T01",
        .field "SF049b" "Troposphere coefficient T10"],
      .opt "optSF041-2" "SF041" [2] [
        .field "SF050" "Troposphere coefficient T11"]]],
  .opt "optSF040T-2" "SF040T" [2] [
    .field "SF051" "Troposphere residual field size",
    .opt "optSF051-0" "SF051" [0] [
      .field "SF052" "Troposphere grid residuals"],
    .opt "optSF051-1" "SF051" [1] [
      .field "SF053" "Troposphere grid residuals"]]]

/-- `ION_SAT_BLOCK` of `spartntypes_get.py`, including the `"SF045"`
predicate of `optSF054-12` inside the `optSF056-1` block exactly as in the
source. -/
def ION_SAT_BLOCK : List SEnt := [
  .opt "optSF040I-12" "SF041I" [1, 2] [
    .field "SF055" "Ionosphere quality",
    .field "SF056" "Ionosphere polynomial coefficient size indicator",
    .opt "optSF064-0" "SF056" [0] [
      .field "SF057" "Ionosphere coefficient C00",
      .opt "optSF054-12" "SF054" [1, 2] [
        .field "SF058a" "Ionosphere coefficient C01",
        .field "SF058b" "Ionosphere coefficient C10"],
      .opt "optSF054-2" "SF054" [2] [
        .field "SF059" "Ionosphere coefficient C11"]],
    .opt "optSF056-1" "SF056" [1] [
      .field "SF060" "Ionosphere coefficient C00",
      .opt "optSF054-12" "SF045" [1, 2] [
        .field "SF061a" "Ionosphere coefficient C01",
        .field "SF061b" "Ionosphere coefficient C10"],
      .opt "optSF054-2" "SF054" [2] [
        .field "SF062" "Ionosphere coefficient C11"]]],
  .opt "optSF040I-2" "SF041I" [2] [
    .field "SF063" "Ionosphere residual field size",
    .opt "optSF063-0" "SF063" [0] [
      .field "SF064" "Ionosphere grid residuals"],
    .opt "optSF063-1" "SF063" [1] [
      .field "SF065" "Ionosphere grid residuals"],
    .opt "optSF063-2" "SF063" [2] [
      .field "SF066" "Ionosphere grid residuals"],
    .opt "optSF063-3" "SF063" [3] [
      .field "SF067" "Ionosphere grid residuals"]]]

/-- `SPARTN-1X-OCB-GPS` payload schema of `spartntypes_get.py`. -/
def OCB_GPS : List SEnt := OCB_HDR ++ [
  .field "SF016" "GPS Ephemeris type",
  .nsatmask "Satellite mask length",
  .field "SF011" "GPS Satellite mask",
  .grp "groupSat" .nsat ([
    .field "SF013" "Do not use (DNU)",
    .field "SF014" "OCB present flags",
    .field "SF015" "Continuity indicator",
    .field "SF018" "GPS IODE"] ++ ORBCLK_BLOCK ++ [
    .nphabiasmask "Phase bias mask length",
    .field "SF025" "GPS phase bias mask",
    .grp "groupSF025-BITS" (.nb "SF025") PHAS_BIAS_BLOCK,
    .ncodbiasmask "Code bias mask length",
    .field "SF027" "GPS code bias mask",
    .grp "groupSF027-BITS" (.nb "SF027") [
      .field "SF029" "Code bias correction"]])]

/-- `SPARTN-1X-OCB-GLO` payload schema of `spartntypes_get.py`. -/
def OCB_GLO : List SEnt := OCB_HDR ++ [
  .field "SF017" "GLO Ephemeris type",
  .nsatmask "Satellite mask length",
  .field "SF012" "GLO Satellite mask",
  .grp "groupSat" .nsat ([
    .field "SF013" "Do not use (DNU)",
    .field "SF014" "OCB present flags",
    .field "SF015" "Continuity indicator",
    .field "SF019" "GLONASS IODE"] ++ ORBCLK_BLOCK ++ [
    .nphabiasmask "Phase bias mask length",
    .field "SF026" "GLONASS phase bias mask",
    .grp "groupSF026-BITS" (.nb "SF026") PHAS_BIAS_BLOCK,
    .ncodbiasmask "Code bias mask length",
    .field "SF028" "GLONASScode bias mask",
    .grp "groupSF028-BITS" (.nb "SF028") [
      .field "SF029" "Code bias correction"]])]

/-- `SPARTN-1X-OCB-GAL` payload schema of `spartntypes_get.py`.  The phase
and code bias mask fields are keyed `"SF0102"` and `"SF0105"` while the
repeating groups count the bits of `"SF102"` and `"SF105"`, exactly as in
the source. -/
def OCB_GAL : List SEnt := OCB_HDR ++ [
  .field "SF096" "GALILEO Ephemeris type",
  .nsatmask "Satellite mask length",
  .field "SF093" "GALILEO Satellite mask",
  .grp "groupSat" .nsat ([
    .field "SF013" "Do not use (DNU)",
    .field "SF014" "OCB present flags",
    .field "SF015" "Continuity indicator",
    .field "SF099" "GALILEO IODE"] ++ ORBCLK_BLOCK ++ [
    .nphabiasmask "Phase bias mask length",
    .field "SF0102" "GALILEO phase bias mask",
    .grp "groupSF102-BITS" (.nb "SF102") PHAS_BIAS_BLOCK,
    .ncodbiasmask "Code bias mask length",
    .field "SF0105" "GALILEO code bias mask",
    .grp "groupSF105-BITS" (.nb "SF105") [
      .field "SF029" "Code bias correction"]])]

/-- `SPARTN-1X-OCB-BEI` payload schema of `spartntypes_get.py`. -/
def OCB_BEI : List SEnt := OCB_HDR ++ [
  .field "SF097" "BEIDOU Ephemeris type",
  .nsatmask "Satellite mask length",
  .field "SF094" "BEIDOU Satellite mask",
  .grp "groupSat" .nsat ([
    .field "SF013" "Do not use (DNU)",
    .field "SF014" "OCB present flags",
    .field "SF015" "Continuity indicator",
    .field "SF0100" "BEIDOU IODE"] ++ ORBCLK_BLOCK ++ [
    .nphabiasmask "Phase bias mask length",
    .field "SF0103" "BEIDOU phase bias mask",
    .grp "groupSF103-BITS" (.nb "SF103") PHAS_BIAS_BLOCK,
    .ncodbiasmask "Code bias mask length",
    .field "SF0106" "BEIDOU code bias mask",
    .grp "groupSF106-BITS" (.nb "SF106") [
      .field "SF029" "Code bias correction"]])]

/-- `SPARTN-1X-OCB-QZS` payload schema of `spartntypes_get.py`. -/
def OCB_QZS : List SEnt := OCB_HDR ++ [
  .field "SF098" "QZSS Ephemeris type",
  .nsatmask "Satellite mask length",
  .field "SF095" "QZSS Satellite mask",
  .grp "groupSat" .nsat ([
    .field "SF013" "Do not use (DNU)",
    .field "SF014" "OCB present flags",
    .field "SF015" "Continuity indicator",
    .field "SF0101" "QZSS IODE"] ++ ORBCLK_BLOCK ++ [
    .nphabiasmask "Phase bias mask length",
    .field "SF0104" "QZSS phase bias mask",
    .grp "groupSF104-BITS" (.nb "SF104") PHAS_BIAS_BLOCK,
    .ncodbiasmask "Code bias mask length",
    .field "SF0107" "QZSS code bias mask",
    .grp "groupSF107-BITS" (.nb "SF107") [
      .field "SF029" "Code bias correction"]])]

/-- The shared shape of the five HPAC payload schemas of
`spartntypes_get.py`, parameterised by the satellite-mask field and group
key of the constellation. -/
def HPAC_SCHEMA (maskId maskDesc grpKey : String) : List SEnt := HPAC_HDR ++ [
  .grp "groupAtm" (.fid "SF030") (AREA_DATA_BLOCK ++ TROP_DATA_BLOCK ++ [
    .opt "optSF040I-12" "SF040I" [1, 2] [
      .field "SF054" "Ionosphere equation type",
      .field maskId maskDesc,
      .grp grpKey .nsat ION_SAT_BLOCK]])]

/-- `SPARTN-1X-GAD` payload schema of `spartntypes_get.py`. -/
def GAD_SCHEMA : List SEnt := [
  .field "SF005" "Solution issue of updated (SIOU)",
  .field "SF068" "Area issue of update (AIOU)",
  .field "SF069" "Reserved",
  .field "SF030" "Area Count",
  .grp "group" (.fid "SF030") [
    .field "SF031" "Area ID",
    .field "SF032" "Area reference latitude",
    .field "SF033" "Area reference longitude",
    .field "SF034" "Are latitude grid node count",
    .field "SF035" "Area longitude grid node count",
    .field "SF036" "Area latitude grid node spacing",
    .field "SF037" "Area longitude grid node spacing"]]

/-- `SPARTN_PAYLOADS_GET` of `spartntypes_get.py`: the full registry keyed by
message identity, entries in declaration order. -/
def SPARTN_PAYLOADS_GET : List (String × List SEnt) := [
  ("SPARTN-1X-OCB-GPS", OCB_GPS),
  ("SPARTN-1X-OCB-GLO", OCB_GLO),
  ("SPARTN-1X-OCB-GAL", OCB_GAL),
  ("SPARTN-1X-OCB-BEI", OCB_BEI),
  ("SPARTN-1X-OCB-QZS", OCB_QZS),
  ("SPARTN-1X-HPAC-GPS", HPAC_SCHEMA "SF011" "GPS Satellite mask" "groupSF011"),
  ("SPARTN-1X-HPAC-GLO",
    HPAC_SCHEMA "SF012" "GLONASS Satellite mask" "groupSF012"),
  ("SPARTN-1X-HPAC-GAL",
    HPAC_SCHEMA "SF093" "GALILEO Satellite mask" "groupSF093"),
  ("SPARTN-1X-HPAC-BEI",
    HPAC_SCHEMA "SF094" "BEIDOU Satellite mask" "groupSF094"),
  ("SPARTN-1X-HPAC-QZS",
    HPAC_SCHEMA "SF095" "QZSS Satellite mask" "groupSF095"),
  ("SPARTN-1X-GAD", GAD_SCHEMA),
  ("SPARTN-1X-BPAC", []),
  ("SPARTN-1X-EAS-DYN", []),
  ("SPARTN-1X-EAS-GRP", [])]

/-- The claim's invariant, evaluated over the whole registry: every payload
schema passes the scope check. -/
def checkRegistry : Bool :=
  SPARTN_PAYLOADS_GET.all (fun p => entsOK 1000 [] p.2)

theorem take_mem_lt {s : List Nat} (hs : ∀ b ∈ s, b < 256) (n : Nat) :
    ∀ b ∈ s.take n, b < 256 :=
  fun b hb => hs b (List.take_subset n s hb)

theorem drop_take_mem_lt {s : List Nat} (hs : ∀ b ∈ s, b < 256) (m n : Nat) :
    ∀ b ∈ (s.drop m).take n, b < 256 :=
  fun b hb => hs b (List.drop_subset m s (List.take_subset n _ hb))

theorem payDesc_variants_eq (eaf : Nat) (s : List Nat)
    (hs : ∀ b ∈ s, b < 256) :
    payDescEarly eaf s = payDescLate eaf s := by
  by_cases h4 : 4 ≤ s.length
  case neg =>
    unfold payDescEarly payDescLate
    by_cases heaf : eaf ≠ 0
    · rw [if_pos heaf, readBytes_none (by omega : s.length < 6),
        readBytes_none (by omega : s.length < 4)]
    · rw [if_neg heaf, readBytes_none (by omega : s.length < 4)]
  case pos =>
  have ht4 : (s.take 4).length = 4 := by rw [List.length_take]; omega
  obtain ⟨tt0, hbv4⟩ : ∃ t, bitsval (s.take 4) 4 1 = some t :=
    ⟨_, bitsval_getD_some (by omega)⟩
  by_cases heaf : eaf ≠ 0
  · unfold payDescEarly payDescLate
    rw [if_pos heaf]
    by_cases h6 : 6 ≤ s.length
    · have hsplit6 : s.take 6 = s.take 4 ++ (s.drop 4).take 2 := by
        rw [show (6 : Nat) = 4 + 2 from rfl, List.take_add]
      have hbv6 : bitsval (s.take 6) 4 1 = some tt0 := by
        rw [hsplit6,
          bitsval_append_left (by omega) (drop_take_mem_lt hs 4 2), hbv4]
      have hrb2 : readBytes 2 (s.drop 4) =
          some ((s.drop 4).take 2, (s.drop 4).drop 2) :=
        readBytes_take (by simp [List.length_drop]; omega)
      have hdd : (s.drop 4).drop 2 = s.drop 6 := by rw [List.drop_drop]
      simp only [readBytes_take h4, readBytes_take h6, hbv6, hbv4, hrb2, hdd]
      by_cases htt : tt0 ≠ 0
      · simp only [if_pos htt, if_pos heaf]
        by_cases h8 : 8 ≤ s.length
        · have hrb2a : readBytes 2 (s.drop 6) =
              some ((s.drop 6).take 2, (s.drop 6).drop 2) :=
            readBytes_take (by simp [List.length_drop]; omega)
          simp only [hrb2a]
          rw [hsplit6]
        · have hrb2a : readBytes 2 (s.drop 6) = none :=
            readBytes_none (by simp [List.length_drop]; omega)
          simp only [hrb2a]
      · simp only [if_neg htt, if_pos heaf, hrb2, hdd]
        rw [hsplit6]
        simp [List.append_nil]
    · have hrb6 : readBytes 6 s = none :=
        readBytes_none (by omega)
      have hrb2n : readBytes 2 (s.drop 4) = none :=
        readBytes_none (by simp [List.length_drop]; omega)
      simp only [hrb6, readBytes_take h4, hbv4, hrb2n]
      by_cases htt : tt0 ≠ 0
      · simp only [if_pos htt]
      · simp only [if_neg htt, if_pos heaf, hrb2n]
  · unfold payDescEarly payDescLate
    rw [if_neg heaf]
    by_cases h6 : 6 ≤ s.length
    · have hrb2 : readBytes 2 (s.drop 4) =
          some ((s.drop 4).take 2, (s.drop 4).drop 2) :=
        readBytes_take (by simp [List.length_drop]; omega)
      simp only [readBytes_take h4, hbv4, hrb2]
      by_cases htt : tt0 ≠ 0
      · simp only [if_pos htt, if_neg heaf, hrb2]
      · simp only [if_neg htt, if_neg heaf, List.append_nil]
    · have hrb2n : readBytes 2 (s.drop 4) = none :=
        readBytes_none (by simp [List.length_drop]; omega)
      simp only [readBytes_take h4, hbv4, hrb2n]
      by_cases htt : tt0 ≠ 0
      · simp only [if_pos htt, if_neg heaf, hrb2n]
      · simp only [if_neg htt, if_neg heaf, List.append_nil]

/-- `true` exactly when a reader step failed with the out-of-range bit-cursor
error (`SPARTNMessageError` from `bitsval`). -/
def isBitsErrRes {α : Type} : Except (PErr × List Nat) α → Bool
  | .error (.bitsErr, _) => true
  | _ => false

theorem payDescLate_not_bitsErr {eaf : Nat} {s x : List Nat}
    (h : payDescLate eaf s = .error (.bitsErr, x)) : False := by
  unfold payDescLate at h
  cases hrb : readBytes 4 s with
  | none => simp only [hrb] at h; simp at h
  | some p =>
    obtain ⟨pd0, s1⟩ := p
    simp only [hrb] at h
    obtain ⟨-, h40⟩ := readBytes_inv hrb
    obtain ⟨t, hbv⟩ : ∃ t, bitsval pd0 4 1 = some t :=
      ⟨_, bitsval_getD_some (by omega)⟩
    simp only [hbv] at h
    cases hif : (if t ≠ 0 then readBytes 2 s1 else some ([], s1)) with
    | none => simp only [hif] at h; simp at h
    | some p2 =>
      obtain ⟨ext1, s2⟩ := p2
      simp only [hif] at h
      by_cases heaf : eaf ≠ 0
      · rw [if_pos heaf] at h
        cases hrb2 : readBytes 2 s2 with
        | none => simp only [hrb2] at h; simp at h
        | some p3 => simp only [hrb2] at h; simp at h
      · rw [if_neg heaf] at h
        simp at h

theorem payDescEarly_ok_inv {eaf : Nat} {s pd s2 : List Nat} {tt : Nat}
    (h : payDescEarly eaf s = .ok (pd, tt, s2)) :
    pd.length =
      (if eaf ≠ 0 then 6 else 4) + (if tt ≠ 0 then 2 else 0) := by
  unfold payDescEarly at h
  cases hrb : readBytes (if eaf ≠ 0 then 6 else 4) s with
  | none => simp only [hrb] at h; cases h
  | some p =>
    obtain ⟨pd0, s1⟩ := p
    simp only [hrb] at h
    obtain ⟨-, h0⟩ := readBytes_inv hrb
    cases hbv : bitsval pd0 4 1 with
    | none => simp only [hbv] at h; cases h
    | some t =>
      simp only [hbv] at h
      by_cases htt : t ≠ 0
      · rw [if_pos htt] at h
        cases hrb2 : readBytes 2 s1 with
        | none => simp only [hrb2] at h; cases h
        | some p2 =>
          obtain ⟨ext1, s2'⟩ := p2
          simp only [hrb2] at h
          cases h
          obtain ⟨-, h2⟩ := readBytes_inv hrb2
          simp [h0, h2, if_pos htt]
      · rw [if_neg htt] at h
        cases h
        simp [h0, if_neg htt]

theorem payDescEarly_not_bitsErr {eaf : Nat} {s x : List Nat}
    (h : payDescEarly eaf s = .error (.bitsErr, x)) : False := by
  unfold payDescEarly at h
  cases hrb : readBytes (if eaf ≠ 0 then 6 else 4) s with
  | none => simp only [hrb] at h; simp at h
  | some p =>
    obtain ⟨pd0, s1⟩ := p
    simp only [hrb] at h
    obtain ⟨-, h0⟩ := readBytes_inv hrb
    have h4 : 4 ≤ pd0.length := by
      rw [h0]
      by_cases heaf : eaf ≠ 0 <;> simp [heaf]
    obtain ⟨t, hbv⟩ : ∃ t, bitsval pd0 4 1 = some t :=
      ⟨_, bitsval_getD_some (by omega)⟩
    simp only [hbv] at h
    by_cases htt : t ≠ 0
    · rw [if_pos htt] at h
      cases hrb2 : readBytes 2 s1 with
      | none => simp only [hrb2] at h; simp at h
      | some p2 => simp only [hrb2] at h; simp at h
    · rw [if_neg htt] at h
      simp at h

theorem parseTailLate_not_bitsErr {v : Nat} {pre fs pdesc s x : List Nat}
    {nData crcType authInd embAuthLen : Nat}
    (h : parseTailLate v pre fs pdesc nData crcType authInd embAuthLen s =
      .error (.bitsErr, x)) : False := by
  unfold parseTailLate at h
  cases hrb : readBytes nData s with
  | none => simp only [hrb] at h; simp at h
  | some p =>
    obtain ⟨payload, s3⟩ := p
    simp only [hrb] at h
    cases hif : (if authInd > 1 then readBytes (alnLate embAuthLen) s3
                 else some ([], s3)) with
    | none => simp only [hif] at h; simp at h
    | some p2 =>
      obtain ⟨embAuth, s4⟩ := p2
      simp only [hif] at h
      cases hrb2 : readBytes (crcType + 1) s4 with
      | none => simp only [hrb2] at h; simp at h
      | some p3 =>
        obtain ⟨crcb, s5⟩ := p3
        simp only [hrb2] at h
        by_cases hcrc : v &&& VALCRC ≠ 0 ∧
            valid_crc (fs ++ pdesc ++ payload ++ embAuth) (fromBytesBE crcb)
              crcType = false
        · rw [if_pos hcrc] at h
          simp at h
        · rw [if_neg hcrc] at h
          simp at h

theorem parseTailEarly_not_bitsErr {pre fs pdesc s x : List Nat}
    {nData crcType eaf authInd embAuthLen : Nat}
    (h : parseTailEarly pre fs pdesc nData crcType eaf authInd embAuthLen s =
      .error (.bitsErr, x)) : False := by
  unfold parseTailEarly at h
  cases hrb : readBytes nData s with
  | none => simp only [hrb] at h; simp at h
  | some p =>
    obtain ⟨payload, s3⟩ := p
    simp only [hrb] at h
    cases hif : (if eaf ≠ 0 ∧ authInd > 1 then
                   readBytes ((embAuthLen + 1) * 8) s3
                 else some ([], s3)) with
    | none => simp only [hif] at h; simp at h
    | some p2 =>
      obtain ⟨embAuth, s4⟩ := p2
      simp only [hif] at h
      cases hrb2 : readBytes (crcType + 1) s4 with
      | none => simp only [hrb2] at h; simp at h
      | some p3 => simp only [hrb2] at h; simp at h

theorem parseLate_not_bitsErr {v : Nat} {pre s x : List Nat}
    (h : parseSpartnLate v pre s = .error (.bitsErr, x)) : False := by
  unfold parseSpartnLate at h
  cases hrb : readBytes 3 s with
  | none => simp only [hrb] at h; simp at h
  | some p =>
    obtain ⟨fs, s1⟩ := p
    simp only [hrb] at h
    obtain ⟨-, hfs3⟩ := readBytes_inv hrb
    obtain ⟨nD, hb1⟩ : ∃ t, bitsval fs 7 10 = some t :=
      ⟨_, bitsval_getD_some (by omega)⟩
    obtain ⟨eaf, hb2⟩ : ∃ t, bitsval fs 17 1 = some t :=
      ⟨_, bitsval_getD_some (by omega)⟩
    obtain ⟨ct, hb3⟩ : ∃ t, bitsval fs 18 2 = some t :=
      ⟨_, bitsval_getD_some (by omega)⟩
    simp only [hb1, hb2, hb3] at h
    cases hpd : payDescLate eaf s1 with
    | error e =>
      simp only [hpd] at h
      obtain ⟨pe, xs⟩ := e
      cases pe with
      | bitsErr => exact payDescLate_not_bitsErr hpd
      | eof => simp at h
      | unknownProtocol b => simp at h
      | invalidCRC c => simp at h
    | ok trip =>
      obtain ⟨pdesc, tt, s2⟩ := trip
      simp only [hpd] at h
      obtain ⟨-, hpdlen, -⟩ := payDescLate_ok_inv hpd
      by_cases heaf : eaf ≠ 0
      · rw [if_pos heaf] at h
        rw [if_pos heaf] at hpdlen
        have haI := @authIndLate_some pdesc tt
          (by rw [hpdlen]; by_cases htt : tt ≠ 0 <;> simp [htt])
        have heal := @embAuthLenLate_some pdesc tt
          (by rw [hpdlen]; by_cases htt : tt ≠ 0 <;> simp [htt])
        rw [haI, heal] at h
        exact parseTailLate_not_bitsErr h
      · rw [if_neg heaf] at h
        exact parseTailLate_not_bitsErr h

theorem parseEarly_not_bitsErr {pre s x : List Nat}
    (h : parseSpartnEarly pre s = .error (.bitsErr, x)) : False := by
  unfold parseSpartnEarly at h
  cases hrb : readBytes 3 s with
  | none => simp only [hrb] at h; simp at h
  | some p =>
    obtain ⟨fs, s1⟩ := p
    simp only [hrb] at h
    obtain ⟨-, hfs3⟩ := readBytes_inv hrb
    obtain ⟨mT, hb0⟩ : ∃ t, bitsval fs 0 7 = some t :=
      ⟨_, bitsval_getD_some (by omega)⟩
    obtain ⟨nD, hb1⟩ : ∃ t, bitsval fs 7 10 = some t :=
      ⟨_, bitsval_getD_some (by omega)⟩
    obtain ⟨eaf, hb2⟩ : ∃ t, bitsval fs 17 1 = some t :=
      ⟨_, bitsval_getD_some (by omega)⟩
    obtain ⟨ct, hb3⟩ : ∃ t, bitsval fs 18 2 = some t :=
      ⟨_, bitsval_getD_some (by omega)⟩
    obtain ⟨fc, hb4⟩ : ∃ t, bitsval fs 20 4 = some t :=
      ⟨_, bitsval_getD_some (by omega)⟩
    simp only [hb0, hb1, hb2, hb3, hb4] at h
    cases hpd : payDescEarly eaf s1 with
    | error e =>
      simp only [hpd] at h
      obtain ⟨pe, xs⟩ := e
      cases pe with
      | bitsErr => exact payDescEarly_not_bitsErr hpd
      | eof => simp at h
      | unknownProtocol b => simp at h
      | invalidCRC c => simp at h
    | ok trip =>
      obtain ⟨pdesc, tt, s2⟩ := trip
      simp only [hpd] at h
      have hpdlen := payDescEarly_ok_inv hpd
      have hgt : ∃ t, bitsval pdesc 5 (if tt ≠ 0 then 32 else 16) = some t := by
        by_cases htt : tt ≠ 0
        · rw [if_pos htt]
          refine ⟨_, bitsval_getD_some ?_⟩
          rw [hpdlen, if_pos htt]
          by_cases heaf : eaf ≠ 0 <;> simp [heaf]
        · rw [if_neg htt]
          refine ⟨_, bitsval_getD_some ?_⟩
          rw [hpdlen, if_neg htt]
          by_cases heaf : eaf ≠ 0 <;> simp [heaf]
      obtain ⟨gt, hbgt⟩ := hgt
      simp only [hbgt] at h
      by_cases heaf : eaf ≠ 0
      · rw [if_pos heaf] at h
        rw [if_pos heaf] at hpdlen
        have haI : ∃ t, authIndEarly pdesc tt = some t := by
          unfold authIndEarly
          by_cases htt : tt ≠ 0
          · rw [if_pos htt]
            exact ⟨_, bitsval_getD_some (by rw [hpdlen]; simp [htt])⟩
          · rw [if_neg htt]
            exact ⟨_, bitsval_getD_some (by rw [hpdlen]; simp [htt])⟩
        have heal : ∃ t, embAuthLenEarly pdesc tt = some t := by
          unfold embAuthLenEarly
          by_cases htt : tt ≠ 0
          · rw [if_pos htt]
            exact ⟨_, bitsval_getD_some (by rw [hpdlen]; simp [htt])⟩
          · rw [if_neg htt]
            exact ⟨_, bitsval_getD_some (by rw [hpdlen]; simp [htt])⟩
        obtain ⟨aI, haI⟩ := haI
        obtain ⟨eal, heal⟩ := heal
        simp only [haI, heal] at h
        exact parseTailEarly_not_bitsErr h
      · rw [if_neg heaf] at h
        exact parseTailEarly_not_bitsErr h

/-- The smallest well-formed frame: msgType 0, nData 0, eaf 0, crcType 0,
timeTagtype 0, empty payload, CRC-8 value 0 over seven zero bytes. -/
def zeroFrame : List Nat := [115, 0, 0, 0, 0, 0, 0, 0, 0]

/-- The segments of `zeroFrame`. -/
def zeroParts : FrameParts := ⟨[0, 0, 0], [0, 0, 0, 0], [], [], [], [], [0]⟩

theorem zeroFrame_valid (v : Nat) : ValidFrame v zeroFrame := by
  refine ⟨[0, 0, 0, 0, 0, 0, 0, 0], rfl, fun r => ?_⟩
  have h := parseLate_parts zeroParts (by decide) v SPARTN_PREB r
  rw [if_neg ?hneg] at h
  case hneg =>
    rintro ⟨-, h2⟩
    exact absurd h2 (by decide)
  exact h

theorem zeroFrame_validE : ValidFrameE zeroFrame := by
  refine ⟨[0, 0, 0, 0, 0, 0, 0, 0], rfl, fun r => ?_⟩
  simp [parseSpartnEarly, payDescEarly, parseTailEarly, readBytes, bitsval,
    fromBytesBE, authIndEarly, embAuthLenEarly, SPARTN_PREB, zeroFrame]

/-- Claim C9: constructing a reader with decryption enabled and no key — the
`key` argument absent and the `MQTTKEY` environment variable unset — raises
`ParameterError` at construction time, for every datastream and every other
configuration value, and no byte of the datastream is consumed (the
constructor returns the stream untouched on the success path and fails here
before ever touching it). -/
theorem c9_decrypt_without_key (ds : List Nat) (v q : Nat) :
    initReader ds v q true none none = .error .parameterError := by
  rfl

/-- Claim C10: for every stream and preamble handed to either reader
variant's `_parse_spartn`, no `bitsval` call it performs is out of range: the
bit-cursor failure branch (`SPARTNMessageError`, modelled as `.bitsErr`) is
unreachable during framing, for the 3-byte framestart and the 4-, 6- or
8-byte payload descriptor as assembled at each point. -/
theorem c10_bitsval_in_range (v : Nat) (pre s pre' s' : List Nat) :
    isBitsErrRes (parseSpartnLate v pre s) = false ∧
    isBitsErrRes (parseSpartnEarly pre' s') = false := by
  constructor
  · cases hres : parseSpartnLate v pre s with
    | ok t => rfl
    | error e =>
      obtain ⟨pe, x⟩ := e
      cases pe with
      | eof => rfl
      | unknownProtocol b => rfl
      | invalidCRC c => rfl
      | bitsErr => exact (parseLate_not_bitsErr hres).elim
  · cases hres : parseSpartnEarly pre' s' with
    | ok t => rfl
    | error e =>
      obtain ⟨pe, x⟩ := e
      cases pe with
      | eof => rfl
      | unknownProtocol b => rfl
      | invalidCRC c => rfl
      | bitsErr => exact (parseEarly_not_bitsErr hres).elim

/-- Claim C8: the scope invariant fails on the registry.  `checkRegistry`
checks, for every payload schema of `SPARTN_PAYLOADS_GET`, that every
conditional's predicate field and every `(fieldId, NB)` group count source
occurs as a plain field key earlier in the scope chain — and it evaluates to
`false`.  `SPARTN-1X-OCB-GAL` fails because `groupSF102-BITS` counts the bits
of `SF102` while the mask field is keyed `SF0102` (likewise BEI/QZS and
`SF105`/`SF106`/`SF107`); the HPAC schemas fail because `ION_SAT_BLOCK`
conditions on `SF041I` (the field is keyed `SF040i`) and on `SF045` where
`SF054` was intended.  The OCB-GPS schema passes, showing the check is not
vacuous. -/
theorem c8_registry_scope_check :
    checkRegistry = false ∧
    entsOK 1000 [] OCB_GAL = false ∧
    entsOK 1000 [] (HPAC_SCHEMA "SF011" "GPS Satellite mask" "groupSF011") =
      false ∧
    entsOK 1000 [] OCB_GPS = true := by
  refine ⟨by decide, by decide, by decide, by decide⟩

/-- Claim C6: for every input stream that ends mid-frame — EOF strikes after
the 0x73 preamble byte has been consumed but before the frame is complete, so
`_parse_spartn` raises `EOFError` — `read()` returns `(None, None)` (modelled
`none`) and raises no exception (`.ok`), in both reader variants and for
every `validate` and `quitonerror` setting. -/
theorem c6_truncated_frame (v q : Nat) :
    (∀ t x, parseSpartnLate v SPARTN_PREB t = .error (.eof, x) →
      readL v q (SPARTN_PREB ++ t) = .ok (none, [], [])) ∧
    (∀ t x, parseSpartnEarly SPARTN_PREB t = .error (.eof, x) →
      readEL q (SPARTN_PREB ++ t) = .ok (none, [])) := by
  constructor
  · intro t x h
    unfold readL
    have hlen : (SPARTN_PREB ++ t).length + 1 = (t.length + 1) + 1 := by
      simp [SPARTN_PREB]
    rw [hlen]
    exact readLate_eof h q _ []
  · intro t x h
    unfold readEL
    have hlen : (SPARTN_PREB ++ t).length + 1 = (t.length + 1) + 1 := by
      simp [SPARTN_PREB]
    rw [hlen]
    exact readEarly_eof h q _

/-- Witness for claim C6: the one-byte stream `[0x73]` (preamble only) ends
mid-frame in both variants, and `read()` yields `(None, None)`. -/
theorem c6_truncated_frame_witness :
    parseSpartnLate 1 SPARTN_PREB [] = .error (.eof, []) ∧
    parseSpartnEarly SPARTN_PREB [] = .error (.eof, []) ∧
    readL 1 1 (SPARTN_PREB ++ []) = .ok (none, [], []) ∧
    readEL 1 (SPARTN_PREB ++ []) = .ok (none, []) :=
  ⟨by decide, by decide,
    (c6_truncated_frame 1 1).1 [] [] (by decide),
    (c6_truncated_frame 1 1).2 [] [] (by decide)⟩

/-- Claim C7: the two reader variants are equivalent on the payload
descriptor.  (1) On every byte stream the earlier variant's payDesc phase
(pull `6 if eaf else 4`, then +2 if `timeTagtype`) returns exactly what the
later variant's phase (pull 4, +2 if `timeTagtype`, +2 if `eaf`) returns —
same assembled bytes, same `timeTagtype`, same remaining stream, same
errors.  (2) The assembled descriptor has 4 + (2 if timeTagtype) +
(2 if eaf) bytes, i.e. 4, 6 or 8, and is exactly the bytes consumed.
(3) The `authInd` and `embAuthLen` extractions of the two variants read the
same bit positions: `pos + 21 = gtlen + 26` and `pos + 24 = gtlen + 29`. -/
theorem c7_paydesc_variants :
    (∀ eaf s, (∀ b ∈ s, b < 256) →
      payDescEarly eaf s = payDescLate eaf s) ∧
    (∀ eaf s pd tt r, payDescLate eaf s = .ok (pd, tt, r) →
      pd.length =
        4 + (if tt ≠ 0 then 2 else 0) + (if eaf ≠ 0 then 2 else 0) ∧
      s = pd ++ r) ∧
    (∀ pd tt, authIndEarly pd tt = authIndLate pd tt ∧
      embAuthLenEarly pd tt = embAuthLenLate pd tt) := by
  refine ⟨payDesc_variants_eq, ?_, ?_⟩
  · intro eaf s pd tt r h
    obtain ⟨hs, hlen, -⟩ := payDescLate_ok_inv h
    exact ⟨hlen, hs⟩
  · intro pd tt
    by_cases htt : tt ≠ 0 <;>
      simp [authIndEarly, authIndLate, embAuthLenEarly, embAuthLenLate, htt]

/-- Witness for claim C7: an encrypted descriptor stream with
`timeTagtype = 0`: the two variants agree, the descriptor is 6 bytes, and
the extraction positions coincide. -/
theorem c7_paydesc_variants_witness :
    payDescEarly 1 [0, 0, 0, 0, 0, 17] = payDescLate 1 [0, 0, 0, 0, 0, 17] ∧
    payDescLate 1 [0, 0, 0, 0, 0, 17] = .ok ([0, 0, 0, 0, 0, 17], 0, []) ∧
    [0, 0, 0, 0, 0, 17].length =
      4 + (if (0 : Nat) ≠ 0 then 2 else 0) + (if (1 : Nat) ≠ 0 then 2 else 0) ∧
    authIndEarly [0, 0, 0, 0, 0, 17] 0 = authIndLate [0, 0, 0, 0, 0, 17] 0 :=
  ⟨c7_paydesc_variants.1 1 [0, 0, 0, 0, 0, 17] (by decide), by decide,
    (c7_paydesc_variants.2.1 1 [0, 0, 0, 0, 0, 17] [0, 0, 0, 0, 0, 17] 0 []
      (by decide)).1,
    (c7_paydesc_variants.2.2 [0, 0, 0, 0, 0, 17] 0).1⟩

/-- Claim C5 (amended): with `quitonerror = 0` a recoverable frame-level
error inside `read()` of the later variant is swallowed silently — nothing
is handed to `_do_error` (the log stays unchanged) and nothing is raised
(`read` never returns `.error`) — and the loop continues parsing from where
the error left the stream.  The internal `parsed_data = str(err)` assignment
is overwritten on the next loop iteration and never returned: the error text
does not reach the caller.  A `(None, None)` result leaves the stream fully
consumed, i.e. occurs only at end-of-stream. -/
theorem c5_quitonerror0_swallow (v : Nat) :
    (∀ t e s2 fuel log, parseSpartnLate v SPARTN_PREB t = .error (e, s2) →
      e ≠ .eof →
      readLate v 0 (fuel + 1) (SPARTN_PREB ++ t) log =
        readLate v 0 fuel s2 log) ∧
    (∀ fuel s log x, readLate v 0 fuel s log ≠ .error x) ∧
    (∀ s r' log', readL v 0 s = .ok (none, r', log') → r' = []) := by
  refine ⟨?_, readLate_q0_no_raise v, ?_⟩
  · intro t e s2 fuel log h he
    have := readLate_err_continue h he (by decide : (0 : Nat) ≠ 2) fuel log
    simpa using this
  · intro s r' log' h
    exact readLate_none_rest (s.length + 1) s [] log' r' (by omega) h

/-- Witness for claim C5: a lone bad-CRC frame; with `quitonerror = 0` the
failed parse makes `read()` continue on the (empty) remaining stream rather
than return the error text. -/
theorem c5_quitonerror0_swallow_witness :
    parseSpartnLate 1 SPARTN_PREB [0, 0, 0, 0, 0, 0, 0, 1] =
      .error (.invalidCRC 1, []) ∧
    readLate 1 0 1 (SPARTN_PREB ++ [0, 0, 0, 0, 0, 0, 0, 1]) [] =
      readLate 1 0 0 [] [] ∧
    readL 1 0 [115] = .ok (none, [], []) :=
  ⟨by decide,
    (c5_quitonerror0_swallow 1).1 [0, 0, 0, 0, 0, 0, 0, 1]
      (.invalidCRC 1) [] 0 [] (by decide) (by decide),
    by
      have := (c5_quitonerror0_swallow 1).2.2 [115] [] []
      decide⟩

/-- Counterexample for claim C5: stream = bad-CRC frame followed by
`zeroFrame`, `validate = 1`, `quitonerror = 0`.  The claim says `read()`
returns the pair `(bytes, error text)` for the bad frame; the code instead
continues and returns the NEXT frame's `(raw, record)` pair — the parsed
element is a message stub, not an error text — with an empty log. -/
theorem c5_error_text_never_returned :
    readL 1 0 ([115, 0, 0, 0, 0, 0, 0, 0, 1] ++ zeroFrame) =
      .ok (some (zeroFrame, Parsed.msg zeroFrame), [], []) ∧
    Parsed.isErrText (Parsed.msg zeroFrame) = false := by
  exact ⟨by decide, rfl⟩

theorem zipWith_xor_lt :
    ∀ {a m : List Nat}, (∀ x ∈ a, x < 256) → (∀ x ∈ m, x < 256) →
    ∀ b ∈ a.zipWith (· ^^^ ·) m, b < 256 := by
  intro a
  induction a with
  | nil => intro m _ _ b hb; simp at hb
  | cons x a ih =>
    intro m ha hm b hb
    match m with
    | [] => simp at hb
    | y :: m' =>
      simp only [List.zipWith_cons_cons, List.mem_cons] at hb
      rcases hb with rfl | hb
      · exact xor_byte_lt (ha x (by simp)) (hm y (by simp))
      · exact ih (fun z hz => ha z (by simp [hz]))
          (fun z hz => hm z (by simp [hz])) b hb

/-- Claim C1: with `validate = 1`, for every structurally well-formed frame
whose CRC was valid, flipping its CRC tail bytes with any non-zero byte mask
makes the big-endian tail integer differ from the CRC computed over
`framestart ++ payDesc ++ payload ++ embAuth` with the algorithm selected by
`crcType`, and `_parse_spartn` then raises the `Invalid CRC` error; with
`quitonerror = 2`, `read()` surfaces it to the caller. -/
theorem c1_crc_flip_invalid (p : FrameParts) (mask r : List Nat)
    (hok : partsOkLate p = true)
    (hvalid : valid_crc (coreOf p) (fromBytesBE p.crcb)
      (crcTypeOf p.framestart) = true)
    (hmlen : mask.length = p.crcb.length)
    (hmb : ∀ b ∈ mask, b < 256)
    (hmask : ∃ b ∈ mask, b ≠ 0) :
    parseSpartnLate 1 SPARTN_PREB
        (coreOf p ++ (p.crcb.zipWith (· ^^^ ·) mask ++ r)) =
      .error (.invalidCRC (fromBytesBE (p.crcb.zipWith (· ^^^ ·) mask)), r) ∧
    readL 1 2
        (SPARTN_PREB ++ (coreOf p ++ (p.crcb.zipWith (· ^^^ ·) mask ++ r))) =
      .error (.invalidCRC (fromBytesBE (p.crcb.zipWith (· ^^^ ·) mask)), r)
    := by
  have hokP := hok
  simp only [partsOkLate, Bool.and_eq_true, beq_iff_eq] at hokP
  obtain ⟨⟨⟨⟨⟨⟨⟨hfs, hall⟩, h4⟩, hTT⟩, hEAF⟩, hpl⟩, hea⟩, hcb⟩ := hokP
  have hallP : ∀ b ∈ frameBody p, b < 256 := fun b hb =>
    of_decide_eq_true (List.all_eq_true.mp hall b hb)
  have hcoreP : ∀ b ∈ coreOf p, b < 256 := fun b hb =>
    hallP b (by simp [frameBody, hb])
  have hcrcbP : ∀ b ∈ p.crcb, b < 256 := fun b hb =>
    hallP b (by simp [frameBody, hb])
  set crcb' := p.crcb.zipWith (· ^^^ ·) mask with hcrcb'
  set p' : FrameParts := ⟨p.framestart, p.pd0, p.pdTT, p.pdEAF, p.payload,
    p.embAuth, crcb'⟩ with hp'
  have hcrcb'len : crcb'.length = p.crcb.length := by
    rw [hcrcb', List.length_zipWith, hmlen, Nat.min_self]
  have hcrcb'P : ∀ b ∈ crcb', b < 256 := zipWith_xor_lt hcrcbP hmb
  have hok' : partsOkLate p' = true := by
    simp only [partsOkLate, Bool.and_eq_true, beq_iff_eq, hp']
    refine ⟨⟨⟨⟨⟨⟨⟨hfs, ?_⟩, h4⟩, hTT⟩, hEAF⟩, hpl⟩, hea⟩, ?_⟩
    · rw [List.all_eq_true]
      intro b hb
      refine decide_eq_true ?_
      have hb' : b ∈ coreOf p ++ crcb' := hb
      rcases List.mem_append.mp hb' with h | h
      · exact hcoreP b h
      · exact hcrcb'P b h
    · rw [hcrcb'len]
      exact hcb
  have hvEq : fromBytesBE p.crcb =
      crcCompute (crcTypeOf p.framestart) (coreOf p) := by
    simpa [valid_crc] using hvalid
  have hne : fromBytesBE crcb' ≠ fromBytesBE p.crcb := by
    intro heq
    exact zipWith_xor_ne hmlen hmask
      (fromBytesBE_inj (by rw [hcrcb'len]) hcrcb'P hcrcbP heq)
  have hvalid' : valid_crc (coreOf p) (fromBytesBE crcb')
      (crcTypeOf p.framestart) = false := by
    simp only [valid_crc, beq_eq_false_iff_ne, ne_eq]
    intro heq
    exact hne (heq.trans hvEq.symm)
  have hmain := parseLate_parts p' hok' 1 SPARTN_PREB r
  rw [if_pos ⟨by decide, hvalid'⟩] at hmain
  have hfb : frameBody p' ++ r = coreOf p ++ (crcb' ++ r) := by
    simp only [hp', frameBody, coreOf, pdFull, List.append_assoc]
  rw [hfb] at hmain
  refine ⟨hmain, ?_⟩
  unfold readL
  have hlen : (SPARTN_PREB ++ (coreOf p ++ (crcb' ++ r))).length + 1 =
      ((coreOf p ++ (crcb' ++ r)).length + 1) + 1 := by
    simp [SPARTN_PREB]
  rw [hlen]
  exact readLate_err_raise hmain (by simp) _ []

/-- Witness for claim C1: `zeroFrame`'s parts (valid CRC-8 value 0) with the
CRC byte flipped by mask 0xFF: the parse reports `Invalid CRC 255`, and
`read()` with `quitonerror = 2` raises it. -/
theorem c1_crc_flip_invalid_witness :
    partsOkLate zeroParts = true ∧
    valid_crc (coreOf zeroParts) (fromBytesBE zeroParts.crcb)
      (crcTypeOf zeroParts.framestart) = true ∧
    [255].length = zeroParts.crcb.length ∧
    (∀ b ∈ [255], b < 256) ∧
    (∃ b ∈ [255], b ≠ 0) ∧
    parseSpartnLate 1 SPARTN_PREB
        (coreOf zeroParts ++ (zeroParts.crcb.zipWith (· ^^^ ·) [255] ++ [])) =
      .error (.invalidCRC
        (fromBytesBE (zeroParts.crcb.zipWith (· ^^^ ·) [255])), []) := by
  refine ⟨by decide, by decide, by decide, by decide,
    ⟨255, by decide, by decide⟩, ?_⟩
  exact (c1_crc_flip_invalid zeroParts [255] [] (by decide) (by decide)
    (by decide) (by decide) ⟨255, by decide, by decide⟩).1

/-- Claim C2: for every stream that is the concatenation of `k` valid SPARTN
frames, iterating the (later-variant) reader over it yields exactly the `k`
pairs `(frame, record-stub)` — in particular `k` pairs — and concatenating
the raw elements of the pairs reproduces the stream byte-for-byte; for every
`validate` mode under which the frames are valid and every `quitonerror`
setting of the reader and of `iterate`. -/
theorem c2_framing_roundtrip (v qr qi : Nat) (L : List (List Nat))
    (hall : ∀ f ∈ L, ValidFrame v f) :
    iterateLate v qr qi (L.flatten.length + 1) L.flatten =
      .ok (L.map fun f => (f, Parsed.msg f)) ∧
    (L.map fun f => (f, Parsed.msg f)).length = L.length ∧
    ((L.map fun f => (f, Parsed.msg f)).map Prod.fst).flatten = L.flatten
    := by
  refine ⟨iterateLate_frames L _ hall (le_refl _), by simp, ?_⟩
  have hmm : ∀ M : List (List Nat),
      (M.map fun f => (f, Parsed.msg f)).map Prod.fst = M := by
    intro M
    induction M with
    | nil => rfl
    | cons a M ih => simp [ih]
  rw [hmm]

/-- Witness for claim C2: two concatenated `zeroFrame`s; iterating yields
exactly the two pairs. -/
theorem c2_framing_roundtrip_witness :
    (∀ f ∈ [zeroFrame, zeroFrame], ValidFrame 1 f) ∧
    iterateLate 1 1 1 ([zeroFrame, zeroFrame].flatten.length + 1)
        [zeroFrame, zeroFrame].flatten =
      .ok ([zeroFrame, zeroFrame].map fun f => (f, Parsed.msg f)) := by
  have hv : ∀ f ∈ [zeroFrame, zeroFrame], ValidFrame 1 f := by
    intro f hf
    simp only [List.mem_cons, List.not_mem_nil, or_false] at hf
    rcases hf with rfl | rfl
    · exact zeroFrame_valid 1
    · exact zeroFrame_valid 1
  exact ⟨hv, (c2_framing_roundtrip 1 1 1 [zeroFrame, zeroFrame] hv).1⟩

/-- Claim C3 (amended to the later reader variant): whenever the later
variant's `_parse_spartn` succeeds, the raw frame splits after the preamble
into framestart, payDesc, payload, embAuth and CRC, where the embedded-auth
block has exactly `alnLate embAuthLen` bytes when `authInd > 1` and is empty
otherwise — in particular empty whenever `eaf = 0` (then `authInd` is 0) or
`authInd ≤ 1` — and `alnLate` is exactly the table 8, 12, 16, 32, 64 bytes
for `embAuthLen` 0..4 and 0 bytes for any other value.  (The earlier variant
instead pulls `(embAuthLen + 1) * 8` bytes; see the counterexample.) -/
theorem c3_embauth_table_late (v : Nat) (pre s raw r : List Nat)
    (pd : Parsed) (h : parseSpartnLate v pre s = .ok (raw, pd, r)) :
    (∃ (fs pdesc payload embAuth crcb : List Nat) (eaf tt aI eal : Nat),
      raw = pre ++ (fs ++ pdesc ++ payload ++ embAuth) ++ crcb ∧
      bitsval fs 17 1 = some eaf ∧
      (eaf ≠ 0 → authIndLate pdesc tt = some aI ∧
        embAuthLenLate pdesc tt = some eal) ∧
      (eaf = 0 → aI = 0) ∧
      embAuth.length = (if aI > 1 then alnLate eal else 0) ∧
      (aI ≤ 1 → embAuth = []) ∧
      (eaf = 0 → embAuth = [])) ∧
    alnLate 0 = 8 ∧ alnLate 1 = 12 ∧ alnLate 2 = 16 ∧ alnLate 3 = 32 ∧
    alnLate 4 = 64 ∧ (∀ e, 5 ≤ e → alnLate e = 0) := by
  obtain ⟨fs, pdesc, payload, embAuth, crcb, nD, eaf, ct, tt, aI, eal,
    hfs3, hb1, hb2, hb3, htt, hpdlen, hauth, hzero, hpl, hlenea, hcb,
    hseq, hraw, hpd2⟩ := parseLate_inv h
  refine ⟨⟨fs, pdesc, payload, embAuth, crcb, eaf, tt, aI, eal,
    hraw, hb2, hauth, fun h0 => (hzero h0).1, hlenea, ?_, ?_⟩,
    rfl, rfl, rfl, rfl, rfl, ?_⟩
  · intro haI1
    rw [if_neg (by omega)] at hlenea
    exact List.length_eq_zero.mp hlenea
  · intro h0
    rw [if_neg (by have := (hzero h0).1; omega)] at hlenea
    exact List.length_eq_zero.mp hlenea
  · intro e he
    unfold alnLate
    rw [if_neg (by omega), if_neg (by omega), if_neg (by omega),
      if_neg (by omega), if_neg (by omega)]

/-- Witness for claim C3: a later-variant frame with `eaf = 1`,
`authInd = 2`, `embAuthLen = 1` and a 12-byte embedded-auth block
(`validate = 0`, so the CRC byte is arbitrary). -/
theorem c3_embauth_table_late_witness :
    parseSpartnLate 0 SPARTN_PREB
        [0, 0, 64, 0, 0, 0, 0, 0, 17, 0, 0, 0, 0, 0, 0, 0, 0, 0, 0, 0, 0,
         0] =
      .ok ([115, 0, 0, 64, 0, 0, 0, 0, 0, 17, 0, 0, 0, 0, 0, 0, 0, 0, 0, 0,
            0, 0, 0],
        Parsed.msg [115, 0, 0, 64, 0, 0, 0, 0, 0, 17, 0, 0, 0, 0, 0, 0, 0,
          0, 0, 0, 0, 0, 0], []) ∧
    ((∃ (fs pdesc payload embAuth crcb : List Nat) (eaf tt aI eal : Nat),
      [115, 0, 0, 64, 0, 0, 0, 0, 0, 17, 0, 0, 0, 0, 0, 0, 0, 0, 0, 0, 0,
        0, 0] =
        SPARTN_PREB ++ (fs ++ pdesc ++ payload ++ embAuth) ++ crcb ∧
      bitsval fs 17 1 = some eaf ∧
      (eaf ≠ 0 → authIndLate pdesc tt = some aI ∧
        embAuthLenLate pdesc tt = some eal) ∧
      (eaf = 0 → aI = 0) ∧
      embAuth.length = (if aI > 1 then alnLate eal else 0) ∧
      (aI ≤ 1 → embAuth = []) ∧
      (eaf = 0 → embAuth = [])) ∧
    alnLate 0 = 8 ∧ alnLate 1 = 12 ∧ alnLate 2 = 16 ∧ alnLate 3 = 32 ∧
    alnLate 4 = 64 ∧ (∀ e, 5 ≤ e → alnLate e = 0)) := by
  refine ⟨by decide, ?_⟩
  exact c3_embauth_table_late 0 SPARTN_PREB
    [0, 0, 64, 0, 0, 0, 0, 0, 17, 0, 0, 0, 0, 0, 0, 0, 0, 0, 0, 0, 0, 0]
    [115, 0, 0, 64, 0, 0, 0, 0, 0, 17, 0, 0, 0, 0, 0, 0, 0, 0, 0, 0, 0, 0,
     0] []
    (Parsed.msg [115, 0, 0, 64, 0, 0, 0, 0, 0, 17, 0, 0, 0, 0, 0, 0, 0, 0,
      0, 0, 0, 0, 0]) (by decide)

/-- Counterexample for claim C3: the earlier reader variant does NOT follow
the 8/12/16/32/64 table: on a frame with `eaf = 1`, `authInd = 2` and
`embAuthLen = 1` it pulls a 16-byte embedded-auth block
(`(embAuthLen + 1) * 8`), not the 12 bytes the claim requires: the parse
succeeds on a 27-byte raw frame (1 + 3 + 6 + 0 + 16 + 1), where the claim
predicts 23 bytes (1 + 3 + 6 + 0 + 12 + 1). -/
theorem c3_embauth_early_counterexample :
    authIndEarly [0, 0, 0, 0, 0, 17] 0 = some 2 ∧
    embAuthLenEarly [0, 0, 0, 0, 0, 17] 0 = some 1 ∧
    parseSpartnEarly SPARTN_PREB
        [0, 0, 64, 0, 0, 0, 0, 0, 17, 0, 0, 0, 0, 0, 0, 0, 0, 0, 0, 0, 0,
         0, 0, 0, 0, 0] =
      .ok ([115, 0, 0, 64, 0, 0, 0, 0, 0, 17, 0, 0, 0, 0, 0, 0, 0, 0, 0, 0,
            0, 0, 0, 0, 0, 0, 0],
        Parsed.msg [115, 0, 0, 64, 0, 0, 0, 0, 0, 17, 0, 0, 0, 0, 0, 0, 0,
          0, 0, 0, 0, 0, 0, 0, 0, 0, 0], []) ∧
    ([115, 0, 0, 64, 0, 0, 0, 0, 0, 17, 0, 0, 0, 0, 0, 0, 0, 0, 0, 0, 0,
      0, 0, 0, 0, 0, 0] : List Nat).length = 1 + 3 + 6 + 0 + 16 + 1 ∧
    ¬([115, 0, 0, 64, 0, 0, 0, 0, 0, 17, 0, 0, 0, 0, 0, 0, 0, 0, 0, 0, 0,
      0, 0, 0, 0, 0, 0] : List Nat).length = 1 + 3 + 6 + 0 + 12 + 1 := by
  refine ⟨by decide, by decide, by decide, by decide, by decide⟩

/-- Claim C4 (amended): for every finite stream `garbage ++ frame ++ rest`
where the garbage contains no 0x73 byte: the LATER reader variant's `read()`
with `quitonerror ≤ 1` discards each garbage byte (handing an unknown-
protocol error per byte to `_do_error` when `quitonerror = 1`, silently when
0) and returns the valid frame's `(raw, record)` pair; the EARLIER variant
does the same with `quitonerror = 0`.  (With `quitonerror = 1` the earlier
variant instead returns the first garbage byte with an error text — see the
counterexample.) -/
theorem c4_preamble_resync (v q : Nat) (hq : q ≤ 1) (g f r : List Nat)
    (hg : ∀ b ∈ g, b ≠ 115) (hf : ValidFrame v f)
    (f2 r2 : List Nat) (hf2 : ValidFrameE f2) :
    readL v q (g ++ (f ++ r)) =
      .ok (some (f, Parsed.msg f), r,
        if q = 1 then g.map (fun b => PErr.unknownProtocol [b]) else []) ∧
    readEL 0 (g ++ (f2 ++ r2)) = .ok (some (f2, Parsed.msg f2), r2) := by
  obtain ⟨t, hft, hparse⟩ := hf
  obtain ⟨t2, hft2, hparse2⟩ := hf2
  subst hft
  subst hft2
  constructor
  · unfold readL
    have hlen : (g ++ ((SPARTN_PREB ++ t) ++ r)).length + 1 =
        g.length + (((SPARTN_PREB ++ t) ++ r).length + 1) := by
      rw [List.length_append]
      omega
    rw [hlen,
      readLate_skip hq g hg (((SPARTN_PREB ++ t) ++ r).length + 1)
        ((SPARTN_PREB ++ t) ++ r) [],
      readLate_success (hparse r) q ((SPARTN_PREB ++ t) ++ r).length _]
    simp
  · unfold readEL
    have hlen : (g ++ ((SPARTN_PREB ++ t2) ++ r2)).length + 1 =
        g.length + (((SPARTN_PREB ++ t2) ++ r2).length + 1) := by
      rw [List.length_append]
      omega
    rw [hlen,
      readEarly_skip_q0 g hg (((SPARTN_PREB ++ t2) ++ r2).length + 1)
        ((SPARTN_PREB ++ t2) ++ r2)]
    exact readEarly_success (hparse2 r2) 0 _

/-- Witness for claim C4: one garbage byte `0x00` before `zeroFrame`; the
later variant with `quitonerror = 1` skips it (logging one unknown-protocol
error) and returns the frame, and the earlier variant with `quitonerror = 0`
does the same. -/
theorem c4_preamble_resync_witness :
    (∀ b ∈ ([0] : List Nat), b ≠ 115) ∧
    readL 1 1 ([0] ++ (zeroFrame ++ [])) =
      .ok (some (zeroFrame, Parsed.msg zeroFrame), [],
        if (1 : Nat) = 1 then [0].map (fun b => PErr.unknownProtocol [b])
        else []) ∧
    readEL 0 ([0] ++ (zeroFrame ++ [])) =
      .ok (some (zeroFrame, Parsed.msg zeroFrame), []) := by
  have h := c4_preamble_resync 1 1 (by decide) [0] zeroFrame [] (by decide)
    (zeroFrame_valid 1) zeroFrame [] zeroFrame_validE
  exact ⟨by decide, h.1, h.2⟩

/-- Counterexample for claim C4: the EARLIER reader variant with
`quitonerror = 1` does not discard a non-preamble byte and resync: on
`[0x00] ++ zeroFrame` it returns the garbage byte itself paired with the
unknown-protocol error text, not the valid frame's pair. -/
theorem c4_early_q1_counterexample :
    readEL 1 ([0] ++ zeroFrame) =
      .ok (some ([0], Parsed.errText (.unknownProtocol [0])), zeroFrame) ∧
    ([0] : List Nat) ≠ zeroFrame := by
  exact ⟨by decide, by decide⟩
